import Mathlib

/-!
Verification of the plugin-runtime security and reliability layer.

Shallow embedding of the Rust sources under `src-tauri/src`:
floating-point quantities (latencies, rates, delays) are modelled as exact
rationals, machine integers as `Nat`, randomness and I/O outcomes (RNG draws,
DNS answers, HTTP responses) as explicit parameters, and lock-protected
critical sections as atomic state transitions.
-/

-- ============================================================================
-- Part 1: Definitions
-- ============================================================================

namespace Monitoring

/-- A single call outcome, from `monitoring/sliding_window.rs` (`CallResult`).
The `latency_ms : Option ℚ` field models the `f64` latency: `some q` is a
finite value `q`, `none` models a non-finite value (`NaN`, `±inf`), so that
`is_finite()` corresponds to `isSome`. -/
structure CallResult where
  success : Bool
  latency_ms : Option ℚ
deriving DecidableEq, Repr

/-- The sliding window, from `SlidingWindow` (ring buffer of recent calls).
`results` lists the stored call results, oldest first. -/
structure SlidingWindow where
  results : List CallResult
  window_size : Nat
deriving DecidableEq, Repr

/-- `SlidingWindow::success_rate`: 1.0 on an empty window, otherwise
`#successes / #entries`. -/
def success_rate (w : SlidingWindow) : ℚ :=
  if w.results.isEmpty then 1
  else ((w.results.filter (fun r => r.success)).length : ℚ) / (w.results.length : ℚ)

/-- The latency filter used by `avg_latency_ms` / `p99_latency_ms`:
`r.success && r.latency_ms.is_finite() && r.latency_ms >= 0.0`. -/
def valid_latency (r : CallResult) : Option ℚ :=
  match r.latency_ms with
  | some q => if r.success ∧ 0 ≤ q then some q else none
  | none => none

/-- `SlidingWindow::p99_latency_ms`: keep successful calls with finite
non-negative latency, sort ascending (`total_cmp`), and take index
`ceil(len * 0.99) - 1` (saturating), defaulting to 0. -/
def p99_latency_ms (w : SlidingWindow) : ℚ :=
  let valid := w.results.filterMap valid_latency
  if valid.isEmpty then 0
  else
    let sorted := valid.insertionSort (· ≤ ·)
    let idx := (Nat.ceil ((valid.length : ℚ) * 99 / 100)) - 1
    (sorted.get? idx).getD 0

/-- Health status, from `HealthStatus` in `plugin/types.rs`. -/
inductive HealthStatus where
  | healthy
  | degraded
  | unhealthy
deriving DecidableEq, Repr

/-- `PluginInstance::to_health` (status derivation only), from
`plugin/lifecycle.rs`: the if-chain over consecutive failures, success rate
and P99 latency.  Thresholds `0.8`, `5000.0`, `0.95` are the exact rationals
`4/5`, `5000`, `19/20` (all comparisons in the source are exact at these
dyadic-free boundaries for realistic window sizes). -/
def to_health (consecutive_failures : Nat) (w : SlidingWindow) : HealthStatus :=
  if consecutive_failures ≥ 3 then .unhealthy
  else if success_rate w < 4/5 then .unhealthy
  else if p99_latency_ms w > 5000 then .degraded
  else if success_rate w < 19/20 then .degraded
  else .healthy

/-- Modelled from the spec (§4.16 status rules, used as the specification side
of claim C5): status determined by consecutive-failures ≥ 3 → Unhealthy; else
success-rate < 0.80 → Unhealthy; else P99 > 5000 ms → Degraded; else
success-rate < 0.95 → Degraded; else Healthy. -/
def specHealthStatus (consecutive_failures : Nat) (rate p99 : ℚ) : HealthStatus :=
  if consecutive_failures ≥ 3 then .unhealthy
  else if rate < 4/5 then .unhealthy
  else if p99 > 5000 then .degraded
  else if rate < 19/20 then .degraded
  else .healthy

/-- Drop the window entries whose latency is non-finite or negative (keeping
everything else), used to state that P99 ignores such latencies. -/
def dropInvalidLatencies (w : SlidingWindow) : SlidingWindow :=
  { w with results := w.results.filter (fun r => (valid_latency r).isSome ∨ ¬ r.success) }

-- ----------------------------------------------------------------------------
-- Alerts (monitoring/alert.rs)
-- ----------------------------------------------------------------------------

/-- `AlertType` from `monitoring/alert.rs`. -/
inductive AlertType where
  | consecutiveFailures
  | highLatency
  | lowSuccessRate
deriving DecidableEq, Repr

/-- `AlertSeverity` from `monitoring/alert.rs`. -/
inductive AlertSeverity where
  | warning
  | critical
deriving DecidableEq, Repr

/-- `AlertThresholds`: `consecutive_failures` is a `u32`, the latency and
success-rate thresholds are `f64` modelled as rationals, cooldown in seconds. -/
structure AlertThresholds where
  consecutive_failures : Nat
  high_latency_ms : ℚ
  low_success_rate : ℚ
  cooldown_seconds : Nat
deriving DecidableEq, Repr

/-- `AlertThresholds::default()`: 3 failures, 5000 ms, 0.8 success rate,
300 s cooldown. -/
def defaultThresholds : AlertThresholds :=
  { consecutive_failures := 3
    high_latency_ms := 5000
    low_success_rate := 4/5
    cooldown_seconds := 300 }

/-- `AlertManager::check_consecutive_failures`, reduced to its firing/severity
decision: fires when `n >= threshold`; `Critical` when
`n >= threshold * 2`, else `Warning`. -/
def check_consecutive_failures (th : AlertThresholds) (n : Nat) : Option AlertSeverity :=
  if n ≥ th.consecutive_failures then
    some (if n ≥ th.consecutive_failures * 2 then .critical else .warning)
  else none

/-- `AlertManager::check_high_latency`: fires when `latency_ms > threshold`;
`Critical` when `latency_ms > threshold * 2.0` (strict), else `Warning`. -/
def check_high_latency (th : AlertThresholds) (latency_ms : ℚ) : Option AlertSeverity :=
  if latency_ms > th.high_latency_ms then
    some (if latency_ms > th.high_latency_ms * 2 then .critical else .warning)
  else none

/-- `AlertManager::check_low_success_rate`: fires when `rate < threshold`;
`Critical` when `rate < threshold / 2.0` (strict), else `Warning`. -/
def check_low_success_rate (th : AlertThresholds) (rate : ℚ) : Option AlertSeverity :=
  if rate < th.low_success_rate then
    some (if rate < th.low_success_rate / 2 then .critical else .warning)
  else none

/-- Cooldown key: `(plugin_id, alert_type)`, from `CooldownKey`. -/
structure CooldownKey where
  plugin_id : String
  alert_type : AlertType
deriving DecidableEq, Repr

/-- The cooldown map (`cooldown_map: RwLock<HashMap<CooldownKey, Instant>>`),
modelled as an association list from keys to the `Instant` (in seconds, as a
`Nat`) of the last recorded alert. -/
abbrev CooldownMap := List (CooldownKey × Nat)

/-- `HashMap::get` on the cooldown map. -/
def cooldownGet (m : CooldownMap) (k : CooldownKey) : Option Nat :=
  match m.find? (fun p => p.1 = k) with
  | some p => some p.2
  | none => none

/-- `HashMap::insert` on the cooldown map (replaces any existing binding). -/
def cooldownInsert (m : CooldownMap) (k : CooldownKey) (t : Nat) : CooldownMap :=
  (k, t) :: m.filter (fun p => ¬ p.1 = k)

/-- `AlertManager::trigger_alert`, restricted to its single write-lock
critical section: read the cooldown entry, and either skip (when
`last.elapsed() < cooldown`) or atomically update the entry and record the
alert.  `Instant::elapsed` is saturating, hence the truncated `Nat`
subtraction `now - last`.  The write lock serializes concurrent callers, so
concurrent triggering is modelled as an arbitrary sequence of these atomic
steps.  Returns the updated map and whether an alert was recorded. -/
def trigger_alert (cooldown : Nat) (m : CooldownMap) (k : CooldownKey) (now : Nat) :
    CooldownMap × Bool :=
  match cooldownGet m k with
  | some last =>
      if now - last < cooldown then (m, false)
      else (cooldownInsert m k now, true)
  | none => (cooldownInsert m k now, true)

/-- Run a sequence of trigger events (each an atomic critical section, in
serialization order) and collect the times at which an alert for `key` was
recorded. -/
def recordedTimes (cooldown : Nat) (key : CooldownKey) :
    CooldownMap → List (CooldownKey × Nat) → List Nat
  | _, [] => []
  | m, (k, t) :: evs =>
      let step := trigger_alert cooldown m k t
      if step.2 ∧ k = key then t :: recordedTimes cooldown key step.1 evs
      else recordedTimes cooldown key step.1 evs

end Monitoring

namespace Timer

/-- `MAX_TIMERS` from `plugin/sandbox/timer.rs`. -/
def MAX_TIMERS : Nat := 100

/-- `MAX_DELAY_MS` from `plugin/sandbox/timer.rs`. -/
def MAX_DELAY_MS : Nat := 60000

/-- The admission-relevant state of `TimerRegistry`: the next timer id
(`AtomicU64`) and the number of available semaphore permits.  The
cancellation tokens and pending/active maps do not affect admission and are
omitted. -/
structure TimerRegistry where
  next_id : Nat
  permits : Nat
deriving DecidableEq, Repr

/-- `TimerRegistry::new()`: ids start at 1, `MAX_TIMERS` permits. -/
def TimerRegistry.new : TimerRegistry := { next_id := 1, permits := MAX_TIMERS }

/-- `TimerRegistry::try_acquire`: `try_acquire_owned` on the semaphore fails
when no permit is available; otherwise take a permit and a fresh id. -/
def try_acquire (r : TimerRegistry) : Option (Nat × TimerRegistry) :=
  if r.permits = 0 then none
  else some (r.next_id, { next_id := r.next_id + 1, permits := r.permits - 1 })

/-- The kind of JS exception thrown into the VM.  `rquickjs`'s
`Exception::from_message` (used by `set_timeout` / `set_interval` on permit
exhaustion) constructs a plain `Error` object (`genericError` here); a
`RangeError` would require `Exception::throw_range`. -/
inductive JsErrorKind where
  | rangeError
  | genericError
deriving DecidableEq, Repr

/-- `set_timeout` from `plugin/sandbox/timer.rs`: clamp the delay with
`delay.unwrap_or(0).min(MAX_DELAY_MS)`, then acquire a permit or throw.
Returns the timer id, the updated registry and the effective delay. -/
def set_timeout (r : TimerRegistry) (delay : Option Nat) :
    Except (JsErrorKind × String) (Nat × TimerRegistry × Nat) :=
  let d := min (delay.getD 0) MAX_DELAY_MS
  match try_acquire r with
  | none => .error (.genericError, "Timer limit exceeded (max 100)")
  | some (id, r') => .ok (id, r', d)

/-- `set_interval` from `plugin/sandbox/timer.rs`: clamp with
`delay.unwrap_or(0).max(10).min(MAX_DELAY_MS)`. -/
def set_interval (r : TimerRegistry) (delay : Option Nat) :
    Except (JsErrorKind × String) (Nat × TimerRegistry × Nat) :=
  let d := min (max (delay.getD 0) 10) MAX_DELAY_MS
  match try_acquire r with
  | none => .error (.genericError, "Timer limit exceeded (max 100)")
  | some (id, r') => .ok (id, r', d)

/-- Apply `set_timeout` `n` times in sequence (one JS evaluation calling
`setTimeout` repeatedly), threading the registry through the successes;
`none` as soon as a call throws. -/
def runTimeouts : Nat → TimerRegistry → Option TimerRegistry
  | 0, r => some r
  | n + 1, r =>
      match set_timeout r (some 0) with
      | .ok (_, r', _) => runTimeouts n r'
      | .error _ => none

end Timer

namespace Retry

/-- `u64::MAX as f64` rounds up to `2^64`; `calculate_delay` caps at this
value before the `Duration::from_millis` conversion. -/
def u64MaxAsF64 : ℚ := 2 ^ 64

/-- `RetryConfig` from `reliability/retry.rs`.  The two `Duration` fields are
carried as their millisecond counts (`as_millis`); `multiplier` and
`jitter_factor` are `f64` modelled as rationals. -/
structure RetryConfig where
  max_retries : Nat
  initial_delay_ms : Nat
  max_delay_ms : Nat
  multiplier : ℚ
  jitter_factor : ℚ
  enable_jitter : Bool
deriving DecidableEq, Repr

/-- `RetryConfig::default()`: 3 retries, 100 ms initial, 5 s max,
multiplier 2.0, jitter 0.2, jitter enabled. -/
def defaultConfig : RetryConfig :=
  { max_retries := 3
    initial_delay_ms := 100
    max_delay_ms := 5000
    multiplier := 2
    jitter_factor := 1/5
    enable_jitter := true }

/-- `RetryExecutor::add_jitter`.  The RNG draw
`rng.gen_range(-jitter_range..=jitter_range)` is modelled by the explicit
parameter `j` (the theorems constrain `|j| ≤ delay * clamped-factor`).
The result is clamped into `[0, max_delay]`. -/
def add_jitter (cfg : RetryConfig) (delay_ms : ℚ) (j : ℚ) : ℚ :=
  max 0 (min (delay_ms + j) (cfg.max_delay_ms : ℚ))

/-- `RetryExecutor::calculate_delay`: clamp the multiplier into
`[1.0, 100.0]`, raise it to `(attempt as i32 - 1).min(20)` (an `Int`
exponent), multiply by the initial delay, cap at `max_delay` and at
`u64::MAX as f64`, then optionally add jitter.  Returns the final delay in
milliseconds (the value passed to `Duration::from_millis`). -/
def calculate_delay (cfg : RetryConfig) (attempt : Nat) (j : ℚ) : ℚ :=
  let safe_multiplier := min (max cfg.multiplier 1) 100
  let base_delay_ms := (cfg.initial_delay_ms : ℚ) * safe_multiplier ^ (min ((attempt : ℤ) - 1) 20)
  let capped_delay_ms := min (min base_delay_ms (cfg.max_delay_ms : ℚ)) u64MaxAsF64
  if cfg.enable_jitter then add_jitter cfg capped_delay_ms j else capped_delay_ms

/-- The claim-side backoff quantity: `initial · clamp(multiplier)^(n-1)`
with the exponent capped at 20, capped at `max_delay`. -/
def clampedMultiplier (cfg : RetryConfig) : ℚ := min (max cfg.multiplier 1) 100

/-- `min(initial · clampedMultiplier^(min(n-1, 20)), max_delay)`, the value
the claim states for the pre-jitter delay. -/
def backoffCapped (cfg : RetryConfig) (attempt : Nat) : ℚ :=
  min ((cfg.initial_delay_ms : ℚ) * clampedMultiplier cfg ^ (min ((attempt : ℤ) - 1) 20))
      (cfg.max_delay_ms : ℚ)

/-- The jitter bound: the RNG draw lies in `[-range, range]` with
`range = delay * jitter_factor.clamp(0.0, 1.0)`. -/
def jitterInRange (cfg : RetryConfig) (delay_ms j : ℚ) : Prop :=
  |j| ≤ delay_ms * min (max cfg.jitter_factor 0) 1

end Retry

namespace Fetch

/-- An IPv4 address as its four octets (`u8` values, so `< 256` in any
reachable state), from `std::net::Ipv4Addr`. -/
structure Ipv4Addr where
  o0 : Nat
  o1 : Nat
  o2 : Nat
  o3 : Nat
deriving DecidableEq, Repr

/-- An IPv6 address as its eight 16-bit segments, from `std::net::Ipv6Addr`. -/
structure Ipv6Addr where
  s0 : Nat
  s1 : Nat
  s2 : Nat
  s3 : Nat
  s4 : Nat
  s5 : Nat
  s6 : Nat
  s7 : Nat
deriving DecidableEq, Repr

/-- `std::net::IpAddr`. -/
inductive IpAddr where
  | v4 (a : Ipv4Addr)
  | v6 (a : Ipv6Addr)
deriving DecidableEq, Repr

/-- The IPv4 arm of `UrlSecurityChecker::is_private_ip`, including the Rust
std predicates it calls (`is_private`, `is_loopback`, `is_link_local`,
`is_broadcast`, `is_unspecified`, `is_documentation`, `is_multicast`),
expanded to their documented octet conditions. -/
def is_private_ipv4 (a : Ipv4Addr) : Bool :=
  -- is_private(): 10.0.0.0/8, 172.16.0.0/12, 192.168.0.0/16
  (decide (a.o0 = 10) ||
   decide (a.o0 = 172 ∧ 16 ≤ a.o1 ∧ a.o1 ≤ 31) ||
   decide (a.o0 = 192 ∧ a.o1 = 168))
  -- is_loopback(): 127.0.0.0/8
  || decide (a.o0 = 127)
  -- is_link_local(): 169.254.0.0/16
  || decide (a.o0 = 169 ∧ a.o1 = 254)
  -- is_broadcast(): 255.255.255.255
  || decide (a.o0 = 255 ∧ a.o1 = 255 ∧ a.o2 = 255 ∧ a.o3 = 255)
  -- is_unspecified(): 0.0.0.0
  || decide (a.o0 = 0 ∧ a.o1 = 0 ∧ a.o2 = 0 ∧ a.o3 = 0)
  -- is_documentation(): 192.0.2.0/24, 198.51.100.0/24, 203.0.113.0/24
  || decide ((a.o0 = 192 ∧ a.o1 = 0 ∧ a.o2 = 2) ∨
             (a.o0 = 198 ∧ a.o1 = 51 ∧ a.o2 = 100) ∨
             (a.o0 = 203 ∧ a.o1 = 0 ∧ a.o2 = 113))
  -- is_multicast(): 224.0.0.0/4
  || decide (224 ≤ a.o0 ∧ a.o0 ≤ 239)
  -- CGNAT 100.64.0.0/10
  || decide (a.o0 = 100 ∧ a.o1 % 256 &&& 0xC0 = 64)
  -- 0.0.0.0/8 (current network)
  || decide (a.o0 = 0)
  -- 240.0.0.0/4 (reserved) and 255.255.255.255
  || decide (240 ≤ a.o0)
  -- 192.0.0.0/24 (IANA reserved)
  || decide (a.o0 = 192 ∧ a.o1 = 0 ∧ a.o2 = 0)
  -- 198.18.0.0/15 (benchmarking)
  || decide (a.o0 = 198 ∧ (a.o1 = 18 ∨ a.o1 = 19))

/-- The IPv6 arm of `UrlSecurityChecker::is_private_ip` over the segments,
with the IPv4-mapped case delegating to the IPv4 predicate exactly as the
source recurses. -/
def is_private_ipv6 (a : Ipv6Addr) : Bool :=
  -- is_loopback(): ::1
  decide (a.s0 = 0 ∧ a.s1 = 0 ∧ a.s2 = 0 ∧ a.s3 = 0 ∧
          a.s4 = 0 ∧ a.s5 = 0 ∧ a.s6 = 0 ∧ a.s7 = 1)
  -- is_unspecified(): ::
  || decide (a.s0 = 0 ∧ a.s1 = 0 ∧ a.s2 = 0 ∧ a.s3 = 0 ∧
             a.s4 = 0 ∧ a.s5 = 0 ∧ a.s6 = 0 ∧ a.s7 = 0)
  -- is_multicast(): ff00::/8
  || decide (a.s0 &&& 0xff00 = 0xff00)
  -- ULA (fc00::/7)
  || decide (a.s0 &&& 0xfe00 = 0xfc00)
  -- Link-local (fe80::/10)
  || decide (a.s0 &&& 0xffc0 = 0xfe80)
  -- Deprecated site-local (fec0::/10)
  || decide (a.s0 &&& 0xffc0 = 0xfec0)
  -- IPv4-mapped (::ffff:0:0/96): check the mapped IPv4
  || (decide (a.s0 = 0 ∧ a.s1 = 0 ∧ a.s2 = 0 ∧ a.s3 = 0 ∧ a.s4 = 0 ∧ a.s5 = 0xffff) &&
      is_private_ipv4 ⟨a.s6 >>> 8, a.s6 &&& 0xff, a.s7 >>> 8, a.s7 &&& 0xff⟩)
  -- IPv4-compatible (deprecated, ::x.x.x.x), excluding :: and ::1
  || decide (a.s0 = 0 ∧ a.s1 = 0 ∧ a.s2 = 0 ∧ a.s3 = 0 ∧ a.s4 = 0 ∧ a.s5 = 0 ∧
             ¬(a.s6 = 0 ∧ a.s7 = 0) ∧ ¬(a.s6 = 0 ∧ a.s7 = 1))
  -- Teredo (2001:0000::/32)
  || decide (a.s0 = 0x2001 ∧ a.s1 = 0)
  -- Documentation (2001:db8::/32)
  || decide (a.s0 = 0x2001 ∧ a.s1 = 0x0db8)
  -- Discard-only (100::/64)
  || decide (a.s0 = 0x0100 ∧ a.s1 = 0 ∧ a.s2 = 0 ∧ a.s3 = 0)

/-- `UrlSecurityChecker::is_private_ip`. -/
def is_private_ip : IpAddr → Bool
  | .v4 a => is_private_ipv4 a
  | .v6 a => is_private_ipv6 a

/-- A parsed URL host (`url::Host`): an IPv4 or IPv6 literal, or a domain
name (already lowercased/normalized by the `url` crate's parser). -/
inductive Host where
  | ipv4 (a : Ipv4Addr)
  | ipv6 (a : Ipv6Addr)
  | domain (name : String)
deriving DecidableEq, Repr

/-- A parsed URL (`url::Url`), restricted to the fields `check_url` and
`check_resolved_ip` consult. -/
structure Url where
  scheme : String
  host : Option Host
  port : Option Nat
deriving DecidableEq, Repr

/-- Decimal rendering of an IPv4 host, as `url::Url::host_str` produces. -/
def renderIpv4 (a : Ipv4Addr) : String :=
  toString a.o0 ++ "." ++ toString a.o1 ++ "." ++ toString a.o2 ++ "." ++ toString a.o3

/-- Bracketed lowercase-hex rendering of an IPv6 host.  The `url` crate's
serializer additionally applies `::` compression; both forms agree on every
property `check_url` tests (neither contains a dot, neither ends in a domain
suffix, neither equals `localhost`). -/
def renderIpv6 (a : Ipv6Addr) : String :=
  let grp := fun n => String.mk (Nat.toDigits 16 n)
  "[" ++ grp a.s0 ++ ":" ++ grp a.s1 ++ ":" ++ grp a.s2 ++ ":" ++ grp a.s3 ++ ":" ++
  grp a.s4 ++ ":" ++ grp a.s5 ++ ":" ++ grp a.s6 ++ ":" ++ grp a.s7 ++ "]"

/-- The textual host, `url::Url::host_str` for a present host. -/
def hostText : Host → String
  | .ipv4 a => renderIpv4 a
  | .ipv6 a => renderIpv6 a
  | .domain name => name

/-- Does `s` start with `pat`? (over code points) -/
def listStartsWith : List Char → List Char → Bool
  | _, [] => true
  | [], _ :: _ => false
  | c :: cs, p :: ps => c == p && listStartsWith cs ps

/-- Does `s` contain `pat` as a contiguous substring? (`str::contains`) -/
def listContainsSub : List Char → List Char → Bool
  | [], pat => pat.isEmpty
  | c :: t, pat => listStartsWith (c :: t) pat || listContainsSub t pat

/-- `str::contains` on strings. -/
def containsSub (s pat : String) : Bool := listContainsSub s.data pat.data

/-- Does `s` end with `pat`? (`str::ends_with`) -/
def listEndsWith (s pat : List Char) : Bool :=
  listStartsWith s.reverse pat.reverse

/-- Split on `'.'`, as `Ipv4Addr::from_str` tokenizes a dotted quad. -/
def splitOnDot : List Char → List (List Char)
  | [] => [[]]
  | c :: rest =>
      let r := splitOnDot rest
      if c = '.' then [] :: r
      else
        match r with
        | [] => [[c]]
        | g :: gs => (c :: g) :: gs

/-- One decimal octet of a dotted-quad IPv4 literal, with Rust's
`Ipv4Addr::from_str` restrictions: non-empty, digits only, no leading zero,
value at most 255. -/
def parseOctet (cs : List Char) : Option Nat :=
  if cs.isEmpty then none
  else if ¬ cs.all (fun c => c.isDigit) then none
  else if cs.length > 1 ∧ cs.head? = some '0' then none
  else
    let v := cs.foldl (fun acc c => acc * 10 + (c.toNat - '0'.toNat)) 0
    if v ≤ 255 then some v else none

/-- `host.parse::<IpAddr>()` on a host string.  Only the dotted-quad IPv4
form can succeed here: a bracketed IPv6 host string (`[..]`) is rejected by
`IpAddr::from_str`, and a domain host produced by the `url` parser never
contains `:`. -/
def parse_ip_addr (s : String) : Option IpAddr :=
  match (splitOnDot s.data).map parseOctet with
  | [some a, some b, some c, some d] => some (.v4 ⟨a, b, c, d⟩)
  | _ => none

/-- `FetchError` from `plugin/sandbox/fetch.rs`. -/
inductive FetchError where
  | invalidUrl (msg : String)
  | dnsError (msg : String)
  | tooManyRequests
  | responseTooLarge (size max : Nat)
  | contentLengthOverflow (len : Nat)
  | networkError (msg : String)
  | readError (msg : String)
  | clientNotInitialized
deriving DecidableEq, Repr

/-- The `fmt::Display` implementation for `FetchError`. -/
def FetchError.display : FetchError → String
  | .invalidUrl msg => "Invalid URL: " ++ msg
  | .dnsError msg => "DNS error: " ++ msg
  | .tooManyRequests => "Too many concurrent requests"
  | .responseTooLarge size max =>
      "Response size " ++ toString size ++ " exceeds maximum of " ++ toString max ++ " bytes"
  | .contentLengthOverflow len =>
      "Content-Length " ++ toString len ++ " exceeds platform maximum"
  | .networkError msg => "Network error: " ++ msg
  | .readError msg => "Read error: " ++ msg
  | .clientNotInitialized => "HTTP client not initialized (creation failed)"

/-- `UrlSecurityChecker::check_url` on an already-parsed URL (the
`url::Url::parse` step itself is outside the model): scheme whitelist,
localhost strings, literal-IP privacy via `is_private_ip`, the defensive
re-parse of the host text as an IP, and the internal-domain suffix and
`169.254.` checks on the lowercased host. -/
def check_url (u : Url) : Except FetchError Url :=
  if ¬ (u.scheme = "http" ∨ u.scheme = "https") then
    .error (.invalidUrl ("Unsupported scheme: " ++ u.scheme))
  else
    match u.host with
    | none => .error (.invalidUrl "URL must have a host")
    | some h =>
      if hostText h = "localhost" ∨ hostText h = "127.0.0.1" then
        .error (.invalidUrl "Access to localhost is forbidden")
      else if (match h with
               | .ipv4 a => is_private_ip (.v4 a)
               | .ipv6 a => is_private_ip (.v6 a)
               | .domain _ => false) then
        .error (.invalidUrl "Access to private IP addresses is forbidden")
      else if (match parse_ip_addr (hostText h) with
               | some ip => is_private_ip ip
               | none => false) then
        .error (.invalidUrl "Access to private IP addresses is forbidden")
      else
        if listEndsWith ((hostText h).data.map Char.toLower) ".local".data ∨
           listEndsWith ((hostText h).data.map Char.toLower) ".internal".data ∨
           listEndsWith ((hostText h).data.map Char.toLower) ".localhost".data ∨
           listContainsSub ((hostText h).data.map Char.toLower) "169.254.".data then
          .error (.invalidUrl "Access to internal domains is forbidden")
        else .ok u

/-- `std::net::SocketAddr`. -/
structure SocketAddr where
  ip : IpAddr
  port : Nat
deriving DecidableEq, Repr

/-- The outcome of `tokio::net::lookup_host` under the 5 s timeout,
supplied as a parameter of the model. -/
inductive DnsOutcome where
  | timeout
  | failure (msg : String)
  | resolved (addrs : List SocketAddr)
deriving DecidableEq, Repr

/-- `url::Url::port_or_known_default`. -/
def port_or_known_default (u : Url) : Option Nat :=
  match u.port with
  | some p => some p
  | none =>
      if u.scheme = "http" then some 80
      else if u.scheme = "https" then some 443
      else none

/-- `UrlSecurityChecker::check_resolved_ip`: literal-IP hosts skip DNS (they
were already checked in `check_url`); domain hosts are resolved, an empty
answer or any private address fails, and otherwise the first address is
pinned.  The first component records whether DNS was actually consulted. -/
def check_resolved_ip (u : Url) (dns : DnsOutcome) :
    Bool × Except FetchError (Option SocketAddr) :=
  match u.host with
  | none => (false, .error (.invalidUrl "No host"))
  | some h =>
    let host := hostText h
    match parse_ip_addr host with
    | some ip => (false, .ok (some ⟨ip, (port_or_known_default u).getD 80⟩))
    | none =>
      match dns with
      | .timeout =>
          (true, .error (.dnsError ("DNS resolution timeout after 5s for " ++ host)))
      | .failure msg =>
          (true, .error (.dnsError ("DNS resolution failed: " ++ msg)))
      | .resolved addrs =>
          if addrs.isEmpty then
            (true, .error (.dnsError ("DNS resolution returned no addresses for " ++ host)))
          else
            match addrs.find? (fun a => is_private_ip a.ip) with
            | some _ =>
                (true, .error (.dnsError ("DNS rebinding attack detected: " ++ host ++
                                          " resolved to private IP")))
            | none => (true, .ok addrs.head?)

/-- The security-relevant configuration of a `reqwest::Client`, as set up by
the builder chain in `do_fetch_with_resolved_ip`. -/
structure ClientConfig where
  timeout_secs : Option Nat
  redirectsDisabled : Bool
  proxyDisabled : Bool
  resolvePin : Option (String × SocketAddr)
deriving DecidableEq, Repr

/-- `reqwest::Client::builder()` defaults: no request timeout, redirects
followed (up to 10), environment proxies honored, no DNS overrides. -/
def ClientConfig.builderDefault : ClientConfig :=
  { timeout_secs := none
    redirectsDisabled := false
    proxyDisabled := false
    resolvePin := none }

/-- `ClientBuilder::timeout`. -/
def withTimeout (c : ClientConfig) (secs : Nat) : ClientConfig :=
  { c with timeout_secs := some secs }

/-- `ClientBuilder::redirect(Policy::none())`. -/
def withRedirectNone (c : ClientConfig) : ClientConfig :=
  { c with redirectsDisabled := true }

/-- `ClientBuilder::no_proxy`. -/
def withNoProxy (c : ClientConfig) : ClientConfig :=
  { c with proxyDisabled := true }

/-- `ClientBuilder::resolve(host, addr)`. -/
def withResolve (c : ClientConfig) (host : String) (addr : SocketAddr) : ClientConfig :=
  { c with resolvePin := some (host, addr) }

/-- An HTTP exchange outcome for the pinned request, supplied as a
parameter: a transport error, or a response with status, optional
`Content-Length`, and body chunk sizes. -/
inductive HttpOutcome where
  | netError (msg : String)
  | response (status : Nat) (content_length : Option Nat) (chunks : List Nat)
deriving DecidableEq, Repr

/-- `MAX_RESPONSE_SIZE`: 10 MiB. -/
def MAX_RESPONSE_SIZE : Nat := 10 * 1024 * 1024

/-- The record of an HTTP request actually handed to the transport. -/
structure RequestRecord where
  client : ClientConfig
  url : Url
  target : SocketAddr
deriving DecidableEq, Repr

/-- The streaming read loop: accumulate chunk sizes, failing with
`ResponseTooLarge` the moment the running total exceeds the cap (the
`checked_add` cannot overflow in the `Nat` model). -/
def streamBody (max : Nat) : List Nat → Nat → Except FetchError Nat
  | [], total => .ok total
  | c :: cs, total =>
      let t := total + c
      if t > max then .error (.responseTooLarge t max)
      else streamBody max cs t

/-- `FetchApi::do_fetch_with_resolved_ip`: require a pinned address, build
the per-request client (30 s timeout, redirects off, proxies off, host
pinned to the validated address), send, enforce the `Content-Length` and
streamed-size caps.  Returns the request record (when one was sent) and the
`(ok, status, body-bytes)` result. -/
def do_fetch_with_resolved_ip (u : Url) (resolved : Option SocketAddr)
    (http : HttpOutcome) :
    Option RequestRecord × Except FetchError (Bool × Nat × Nat) :=
  let host := match u.host with
              | some h => hostText h
              | none => ""
  match resolved with
  | none => (none, .error (.dnsError "No resolved IP address available"))
  | some addr =>
    let client :=
      withResolve (withNoProxy (withRedirectNone (withTimeout .builderDefault 30))) host addr
    let req : RequestRecord := { client := client, url := u, target := addr }
    match http with
    | .netError msg => (some req, .error (.networkError msg))
    | .response status content_length chunks =>
      let ok := 200 ≤ status ∧ status ≤ 299
      let lenCheck : Except FetchError Unit :=
        match content_length with
        | some len => if len > MAX_RESPONSE_SIZE then
                        .error (.responseTooLarge len MAX_RESPONSE_SIZE)
                      else .ok ()
        | none => .ok ()
      match lenCheck with
      | .error e => (some req, .error e)
      | .ok _ =>
        match streamBody MAX_RESPONSE_SIZE chunks 0 with
        | .error e => (some req, .error e)
        | .ok totalBytes => (some req, .ok (decide ok, status, totalBytes))

/-- `MAX_CONCURRENT_REQUESTS`: 10. -/
def MAX_CONCURRENT_REQUESTS : Nat := 10

/-- Everything observable about one `secure_fetch` run: the result, whether
DNS was consulted, and the request (if any) handed to the transport. -/
structure FetchTrace where
  result : Except FetchError (Bool × Nat × Nat)
  dnsQueried : Bool
  request : Option RequestRecord
deriving Repr

/-- `FetchApi::secure_fetch`: URL policy, concurrency admission
(`RequestGuard::acquire` over the CAS counter, `active` is the count at
acquisition time), post-DNS privacy check with IP pinning, then the pinned
request. -/
def secure_fetch (u : Url) (active : Nat) (dns : DnsOutcome) (http : HttpOutcome) :
    FetchTrace :=
  match check_url u with
  | .error e => { result := .error e, dnsQueried := false, request := none }
  | .ok _ =>
    if active ≥ MAX_CONCURRENT_REQUESTS then
      { result := .error .tooManyRequests, dnsQueried := false, request := none }
    else
      let step := check_resolved_ip u dns
      match step.2 with
      | .error e => { result := .error e, dnsQueried := step.1, request := none }
      | .ok resolved =>
        let fetched := do_fetch_with_resolved_ip u resolved http
        { result := fetched.2, dnsQueried := step.1, request := fetched.1 }

/-- The JS-visible result object built by the injected `fetch` closure
(`FetchResultData` in the source). -/
structure FetchResultData where
  url : String
  method : String
  ok : Bool
  status : Nat
  body : String
deriving DecidableEq, Repr

/-- What `rx.recv_timeout(30s)` observes: the spawned thread's
`secure_fetch_with_options` result, or a timeout. -/
inductive RecvOutcome where
  | timeout
  | received (r : Except FetchError FetchResultData)
deriving Repr

/-- The body of the closure injected as the JS `fetch` global
(`FetchApi::inject`): its Rust return type is `FetchResultData` (not
`JsResult`), so every branch returns a result object instead of raising.
`urlText` is the raw URL string, `method` the already-defaulted HTTP method
(`opts.method.unwrap_or("GET")`), `recv` the channel outcome. -/
def fetchDispatch (u : Url) (urlText method : String) (recv : RecvOutcome) :
    FetchResultData :=
  match check_url u with
  | .error e =>
      { url := urlText, method := method, ok := false, status := 0
        body := "URL validation failed: " ++ e.display }
  | .ok _ =>
      match recv with
      | .received (.ok result) => result
      | .received (.error e) =>
          { url := urlText, method := method, ok := false, status := 0
            body := "Fetch error: " ++ e.display }
      | .timeout =>
          { url := urlText, method := method, ok := false, status := 0
            body := "Fetch timeout" }

end Fetch

namespace Extractor

/-- `SecurityError`, restricted to the variants `pre_validate` /
`extract_to_temp` can produce (I/O and ZIP-format failures are outside the
model: the modelled filesystem and archive reads succeed). -/
inductive SecurityError where
  | pathTraversal (path : String)
  | symlinkRejected (path : String)
  | fileTypeNotAllowed (file extensionName : String)
  | fileTooLarge (file : String) (size limit : Nat)
  | totalSizeTooLarge (total limit : Nat)
  | tooManyEntries (count limit : Nat)
deriving DecidableEq, Repr

/-- One ZIP entry, as `pre_validate` / `extract_to_temp` observe it.
`enclosedName` models `ZipFile::enclosed_name()`: `some` of the safe
relative path, or `none` when the raw name escapes the target (a `..`
component or an absolute path).  `declaredSize` is the header's uncompressed
size (`ZipFile::size()`); `actualSize` is the number of bytes the entry
actually inflates to when read. -/
structure ZipEntry where
  rawName : String
  enclosedName : Option String
  isSymlink : Bool
  isDir : Bool
  declaredSize : Nat
  actualSize : Nat
deriving DecidableEq, Repr

/-- The `SecureExtractor` configuration fields used by validation and
extraction. -/
structure SecureExtractor where
  max_file_size : Nat
  max_total_size : Nat
  max_entries : Nat
  allowed_extensions : List String
deriving DecidableEq, Repr

/-- `SecureExtractor::new()` with the module constants: 10 MiB per file,
50 MiB total, 1000 entries, whitelist `js`/`json`/`png`/`svg`. -/
def SecureExtractor.new : SecureExtractor :=
  { max_file_size := 10 * 1024 * 1024
    max_total_size := 50 * 1024 * 1024
    max_entries := 1000
    allowed_extensions := ["js", "json", "png", "svg"] }

/-- `std::path::Path::extension().unwrap_or("")` over the final path
component: the part after the last `.` of the file name, empty when there is
no `.` or when the only `.` starts the file name. -/
def extOf (path : String) : String :=
  let fileName := (path.data.splitOn '/').getLastD []
  let rev := fileName.reverse
  let afterRev := rev.takeWhile (fun c => ¬ c = '.')
  match rev.dropWhile (fun c => ¬ c = '.') with
  | [] => ""
  | _ :: pre =>
      if pre.isEmpty then ""
      else String.mk afterRev.reverse

/-- `SecureExtractor::is_allowed_extension`. -/
def is_allowed_extension (cfg : SecureExtractor) (path : String) : Bool :=
  cfg.allowed_extensions.any (fun allowed => allowed = extOf path)

/-- The per-entry portion of `pre_validate`'s loop, in source order:
`enclosed_name` (path traversal), symlink rejection, directory skip,
extension whitelist, declared per-file size.  Returns the error it stops
with, or `none` when the entry passes. -/
def entryCheck (cfg : SecureExtractor) (e : ZipEntry) : Option SecurityError :=
  match e.enclosedName with
  | none => some (.pathTraversal e.rawName)
  | some name =>
    if e.isSymlink then some (.symlinkRejected name)
    else if e.isDir then none
    else if ¬ is_allowed_extension cfg name then
      some (.fileTypeNotAllowed name (extOf name))
    else if e.declaredSize > cfg.max_file_size then
      some (.fileTooLarge name e.declaredSize cfg.max_file_size)
    else none

/-- The declared size an entry contributes to `pre_validate`'s running
total (directories contribute nothing). -/
def entryDeclared (e : ZipEntry) : Nat :=
  if e.isDir then 0 else e.declaredSize

/-- The loop of `SecureExtractor::pre_validate`, threading the declared-size
accumulator. -/
def preValidateLoop (cfg : SecureExtractor) : List ZipEntry → Nat → Except SecurityError Nat
  | [], total => .ok total
  | e :: es, total =>
      match entryCheck cfg e with
      | some err => .error err
      | none => preValidateLoop cfg es (total + entryDeclared e)

/-- `SecureExtractor::pre_validate`: entry-count bound, the per-entry loop,
then the declared total-size bound. -/
def pre_validate (cfg : SecureExtractor) (entries : List ZipEntry) :
    Except SecurityError Unit :=
  if entries.length > cfg.max_entries then
    .error (.tooManyEntries entries.length cfg.max_entries)
  else
    match preValidateLoop cfg entries 0 with
    | .error e => .error e
    | .ok total =>
        if total > cfg.max_total_size then
          .error (.totalSizeTooLarge total cfg.max_total_size)
        else .ok ()

/-- The loop of `SecureExtractor::extract_to_temp`: re-check
`enclosed_name`, create directories, and for files read at most
`max_file_size + 1` bytes (`take`), reject oversized files, accumulate the
actually-written total and reject when it exceeds `max_total_size`.
Returns the files written into the temp directory as `(path, bytes)` pairs. -/
def extractLoop (cfg : SecureExtractor) :
    List ZipEntry → List (String × Nat) → Nat →
    Except SecurityError (List (String × Nat))
  | [], written, _ => .ok written.reverse
  | e :: es, written, total =>
      match e.enclosedName with
      | none => .error (.pathTraversal e.rawName)
      | some name =>
        if e.isDir then extractLoop cfg es written total
        else
          let bytes := min e.actualSize (cfg.max_file_size + 1)
          if bytes > cfg.max_file_size then
            .error (.fileTooLarge name bytes cfg.max_file_size)
          else
            let total' := total + bytes
            if total' > cfg.max_total_size then
              .error (.totalSizeTooLarge total' cfg.max_total_size)
            else extractLoop cfg es ((name, bytes) :: written) total'

/-- `SecureExtractor::extract_to_temp` into a fresh temp directory. -/
def extract_to_temp (cfg : SecureExtractor) (entries : List ZipEntry) :
    Except SecurityError (List (String × Nat)) :=
  extractLoop cfg entries [] 0

/-- `SecureExtractor::extract` as a transition on the target directory
(`none` = nonexistent, `some files` = directory with those files):
pre-validate, extract to a fresh temp directory, then (no backup when the
target does not exist) atomically rename temp over the target.  Any
validation or extraction error leaves the target exactly as it was. -/
def extract (cfg : SecureExtractor) (entries : List ZipEntry)
    (target : Option (List (String × Nat))) :
    Except SecurityError Unit × Option (List (String × Nat)) :=
  match pre_validate cfg entries with
  | .error e => (.error e, target)
  | .ok _ =>
    match extract_to_temp cfg entries with
    | .error e => (.error e, target)
    | .ok files => (.ok (), some files)

end Extractor

namespace Canonical

/-- `serde_json::Value`, from `security/canonical.rs`'s point of view.
Strings and object keys are sequences of code points (Rust `String`s);
`num lit` carries the number's `Number::to_string()` rendering (equal
`serde_json` numbers print identically, so number semantics is its printed
form).  Object fields are the map's `(key, value)` pairs; a `serde_json`
map has pairwise-distinct keys (`wellFormed` below). -/
inductive Json where
  | null : Json
  | bool (b : Bool) : Json
  | num (lit : List Char) : Json
  | str (s : List Char) : Json
  | arr (items : List Json) : Json
  | obj (fields : List (List Char × Json)) : Json

/-- Lowercase hex digit, as `format!("{:04x}")` emits. -/
def hexDigit (n : Nat) : Char :=
  if n < 10 then Char.ofNat ('0'.toNat + n) else Char.ofNat ('a'.toNat + n - 10)

/-- The per-character escape of `escape_string`: `"`, `\`, the five short
escapes, `\u00XX` (lowercase hex) for the remaining C0 controls, everything
else verbatim. -/
def escapeChar (c : Char) : List Char :=
  if c = '"' then ['\\', '"']
  else if c = '\\' then ['\\', '\\']
  else if c = Char.ofNat 8 then ['\\', 'b']
  else if c = Char.ofNat 12 then ['\\', 'f']
  else if c = Char.ofNat 10 then ['\\', 'n']
  else if c = Char.ofNat 13 then ['\\', 'r']
  else if c = Char.ofNat 9 then ['\\', 't']
  else if c.toNat < 0x20 then
    ['\\', 'u', '0', '0', hexDigit (c.toNat / 16), hexDigit (c.toNat % 16)]
  else [c]

/-- `escape_string` from `security/canonical.rs`. -/
def escape_string (s : List Char) : List Char :=
  s.flatMap escapeChar

/-- `Vec::join(",")` over rendered items. -/
def commaJoin : List (List Char) → List Char
  | [] => []
  | [x] => x
  | x :: y :: rest => x ++ ',' :: commaJoin (y :: rest)

/-- Render one object field from its key and already-canonicalized value:
`format!("\"{}\":{}", escape_string(k), canonicalize(v))`. -/
def renderField (p : List Char × List Char) : List Char :=
  '"' :: escape_string p.1 ++ '"' :: ':' :: p.2

/-- Key order on rendered fields: compare keys with the code-point
lexicographic order (Rust `String` `Ord`). -/
def keyLe (p q : List Char × List Char) : Prop := p.1 ≤ q.1

instance : DecidableRel keyLe := fun p q => inferInstanceAs (Decidable (p.1 ≤ q.1))

instance : IsTotal (List Char × List Char) keyLe := ⟨fun a b => le_total a.1 b.1⟩

instance : IsTrans (List Char × List Char) keyLe := ⟨fun _ _ _ h₁ h₂ => le_trans h₁ h₂⟩

/-- Strict key order, used to show that sorting fields with distinct keys is
order-determined. -/
def keyLt (p q : List Char × List Char) : Prop := p.1 < q.1

instance : IsAntisymm (List Char × List Char) keyLt :=
  ⟨fun _ _ h₁ h₂ => absurd (lt_trans h₁ h₂) (lt_irrefl _)⟩

/-- `keys.sort()` of `canonicalize`'s object branch, lifted to the rendered
`(key, canonical-value)` pairs: the source sorts the key list and emits each
key's unique map entry in that order, which (keys being the map's distinct
keys) is exactly sorting the pairs by key. -/
def sortPairs (l : List (List Char × List Char)) : List (List Char × List Char) :=
  l.insertionSort keyLe

/-- The open-brace code point, written via `Char.ofNat`. -/
def lbrace : Char := Char.ofNat 123

/-- The close-brace code point. -/
def rbrace : Char := Char.ofNat 125

mutual

/-- `canonicalize` from `security/canonical.rs`: scalars verbatim, arrays in
order, objects with keys sorted ascending by code point, `,` and `:`
separators, no added whitespace. -/
def canonicalize : Json → List Char
  | .null => "null".data
  | .bool b => if b then "true".data else "false".data
  | .num lit => lit
  | .str s => '"' :: escape_string s ++ ['"']
  | .arr items => '[' :: commaJoin (canonArr items) ++ [']']
  | .obj fields =>
      lbrace :: commaJoin ((sortPairs (canonFields fields)).map renderField) ++ [rbrace]

/-- `arr.iter().map(canonicalize)`. -/
def canonArr : List Json → List (List Char)
  | [] => []
  | v :: vs => canonicalize v :: canonArr vs

/-- Canonicalize each field's value, keeping the key. -/
def canonFields : List (List Char × Json) → List (List Char × List Char)
  | [] => []
  | (k, v) :: fs => (k, canonicalize v) :: canonFields fs

end

/-- `canonicalize_for_signing` from `security/canonical.rs`: on an object,
remove the `signature` entry (`serde_json::Map::remove`) and canonicalize;
otherwise canonicalize as-is. -/
def canonicalize_for_signing (m : Json) : List Char :=
  match m with
  | .obj fields =>
      canonicalize (.obj (fields.eraseP (fun p => p.1 == "signature".data)))
  | _ => canonicalize m

/-- The spec-side description for the signing variant (§4.1: "strips the
top-level `signature` key before serializing"): remove the top-level
`signature` binding, leaving everything else untouched. -/
def stripTopLevelSignature (m : Json) : Json :=
  match m with
  | .obj fields => .obj (fields.eraseP (fun p => p.1 == "signature".data))
  | _ => m

/-- Remove the first field with key `k`, returning its value and the rest in
order (`none` when `k` is absent).  Used to define semantic equality of
JSON objects. -/
def extractKey (k : List Char) :
    List (List Char × Json) → Option (Json × List (List Char × Json))
  | [] => none
  | (k', v) :: fs =>
      if k' == k then some (v, fs)
      else
        match extractKey k fs with
        | some (w, rest) => some (w, (k', v) :: rest)
        | none => none

mutual

/-- Semantic equality of JSON values: scalars equal, arrays pointwise equal,
objects equal as key-value maps (same keys, semantically equal values,
order irrelevant). -/
def semEq : Json → Json → Bool
  | .null, .null => true
  | .bool a, .bool b => a == b
  | .num a, .num b => a == b
  | .str a, .str b => a == b
  | .arr xs, .arr ys => semEqArr xs ys
  | .obj xs, .obj ys => semEqFields xs ys
  | _, _ => false

/-- Pointwise semantic equality of arrays. -/
def semEqArr : List Json → List Json → Bool
  | [], [] => true
  | x :: xs, y :: ys => semEq x y && semEqArr xs ys
  | _, _ => false

/-- Map equality of field lists: every field of the left list is matched
(and removed) in the right list, and nothing of the right list remains. -/
def semEqFields : List (List Char × Json) → List (List Char × Json) → Bool
  | [], ys => ys.isEmpty
  | (k, v) :: xs, ys =>
      match extractKey k ys with
      | none => false
      | some (w, rest) => semEq v w && semEqFields xs rest

end

mutual

/-- A `serde_json::Value` invariant: every object has pairwise-distinct
keys (a `serde_json::Map` cannot hold duplicate keys). -/
def wellFormed : Json → Bool
  | .null => true
  | .bool _ => true
  | .num _ => true
  | .str _ => true
  | .arr xs => wfArr xs
  | .obj fs => decide ((fs.map Prod.fst).Nodup) && wfFields fs

/-- `wellFormed` on every array element. -/
def wfArr : List Json → Bool
  | [] => true
  | v :: vs => wellFormed v && wfArr vs

/-- `wellFormed` on every field value. -/
def wfFields : List (List Char × Json) → Bool
  | [] => true
  | (_, v) :: fs => wellFormed v && wfFields fs

end

/-- JSON structural whitespace: space, tab, line feed, carriage return. -/
def jsonWs (c : Char) : Bool :=
  c == ' ' || c == Char.ofNat 9 || c == Char.ofNat 10 || c == Char.ofNat 13

mutual

/-- All texts embedded in the value (strings, keys, number literals) are
free of whitespace code points (tab/LF/CR in strings would be escaped
anyway; this uniform condition keeps the statement simple). -/
def noWs : Json → Bool
  | .null => true
  | .bool _ => true
  | .num lit => lit.all (fun c => !(jsonWs c))
  | .str s => s.all (fun c => !(jsonWs c))
  | .arr xs => noWsArr xs
  | .obj fs => noWsFields fs

/-- `noWs` on every array element. -/
def noWsArr : List Json → Bool
  | [] => true
  | v :: vs => noWs v && noWsArr vs

/-- `noWs` on every field key and value. -/
def noWsFields : List (List Char × Json) → Bool
  | [] => true
  | (k, v) :: fs => k.all (fun c => !(jsonWs c)) && noWs v && noWsFields fs

end

/-- A concrete object (fields `b` then `a`) used to exercise the
canonicalization invariance on a closed input. -/
def jExampleA : Json :=
  .obj [("b".data, .num "2".data), ("a".data, .str "x".data)]

/-- The same object as `jExampleA` with the field order swapped. -/
def jExampleB : Json :=
  .obj [("a".data, .str "x".data), ("b".data, .num "2".data)]

end Canonical

-- ============================================================================
-- Part 2: Theorems
-- ============================================================================

namespace Monitoring

/-- Filtering out the invalid-latency entries does not change the list of
latencies the percentile is computed over. -/
theorem filterMap_valid_latency_filter (l : List CallResult) :
    (l.filter (fun r => (valid_latency r).isSome ∨ ¬ r.success)).filterMap valid_latency
      = l.filterMap valid_latency := by
  induction l with
  | nil => rfl
  | cons r rs ih =>
    by_cases h : (valid_latency r).isSome ∨ ¬ r.success
    · simp only [List.filter_cons, List.filterMap_cons]
      rw [if_pos (by simpa using h)]
      simp only [List.filterMap_cons, ih]
    · push_neg at h
      obtain ⟨hnone, hsucc⟩ := h
      have hval : valid_latency r = none := by
        cases hv : valid_latency r with
        | none => rfl
        | some q => rw [hv] at hnone; simp at hnone
      simp only [List.filter_cons, List.filterMap_cons]
      rw [if_neg (by simp [hnone, hsucc])]
      rw [ih, hval]

/-- C5: the derived health uses `success_rate` = #successes / #entries (1.0
when the window is empty), a P99 that ignores non-finite and negative
latencies, and the status chain: consecutive-failures ≥ 3 → Unhealthy; else
success-rate < 0.80 → Unhealthy; else P99 > 5000 ms → Degraded; else
success-rate < 0.95 → Degraded; else Healthy. -/
theorem to_health_matches_spec (cf : Nat) (w : SlidingWindow) :
    to_health cf w = specHealthStatus cf (success_rate w) (p99_latency_ms w)
    ∧ success_rate w
        = (if w.results.length = 0 then 1
           else ((w.results.filter (fun r => r.success)).length : ℚ) / (w.results.length : ℚ))
    ∧ p99_latency_ms w = p99_latency_ms (dropInvalidLatencies w) := by
  refine ⟨rfl, ?_, ?_⟩
  · unfold success_rate
    cases w.results <;> simp
  · unfold p99_latency_ms dropInvalidLatencies
    simp only [filterMap_valid_latency_filter]

/-- C7 counterexample: at a latency of exactly twice the threshold
(10000 ms against the default 5000 ms), the recorded severity is `Warning`
(the code tests `latency > threshold * 2.0` strictly), although the claim
("Critical exactly when the observed value is ≥ 2× the threshold") demands
`Critical`. -/
theorem check_high_latency_at_double_threshold :
    check_high_latency defaultThresholds 10000 = some AlertSeverity.warning
    ∧ (10000 : ℚ) ≥ defaultThresholds.high_latency_ms * 2 := by
  have h1 : (10000 : ℚ) > defaultThresholds.high_latency_ms := by
    norm_num [defaultThresholds]
  have h2 : ¬ ((10000 : ℚ) > defaultThresholds.high_latency_ms * 2) := by
    norm_num [defaultThresholds]
  refine ⟨?_, ?_⟩
  · simp [check_high_latency, h1, h2]
  · norm_num [defaultThresholds]

/-- C7 (amended): for every alert check that fires, the severity is Critical
exactly when consecutive failures ≥ 2× threshold, or latency is strictly
greater than 2× threshold, or success rate is strictly below 0.5× threshold,
and Warning otherwise. -/
theorem alert_severity_amended (th : AlertThresholds) (n : Nat) (lat rate : ℚ)
    (sev : AlertSeverity) :
    (check_consecutive_failures th n = some sev →
      (sev = .critical ↔ n ≥ th.consecutive_failures * 2))
    ∧ (check_high_latency th lat = some sev →
      (sev = .critical ↔ lat > th.high_latency_ms * 2))
    ∧ (check_low_success_rate th rate = some sev →
      (sev = .critical ↔ rate < th.low_success_rate / 2)) := by
  refine ⟨?_, ?_, ?_⟩ <;> intro h
  · unfold check_consecutive_failures at h
    split at h
    · rw [Option.some_inj] at h
      subst h
      split <;> simp_all
    · exact absurd h (by simp)
  · unfold check_high_latency at h
    split at h
    · rw [Option.some_inj] at h
      subst h
      split <;> simp_all
    · exact absurd h (by simp)
  · unfold check_low_success_rate at h
    split at h
    · rw [Option.some_inj] at h
      subst h
      split <;> simp_all
    · exact absurd h (by simp)

/-- Witness for `alert_severity_amended` at the default thresholds with six
consecutive failures. -/
theorem alert_severity_amended_witness :
    AlertSeverity.critical = AlertSeverity.critical
      ↔ 6 ≥ defaultThresholds.consecutive_failures * 2 :=
  (alert_severity_amended defaultThresholds 6 10001 (1/2) .critical).1 (by decide)

end Monitoring

namespace Timer

set_option maxRecDepth 4000 in
/-- C8 counterexample: with all 100 permits held, the 101st `setTimeout`
throws the plain `Error` built by `Exception::from_message` ("Timer limit
exceeded (max 100)"), not a `RangeError` as the claim states. -/
theorem set_timeout_101_not_range_error :
    runTimeouts 100 TimerRegistry.new = some ⟨101, 0⟩
    ∧ set_timeout ⟨101, 0⟩ (some 0)
        = .error (.genericError, "Timer limit exceeded (max 100)")
    ∧ JsErrorKind.genericError ≠ JsErrorKind.rangeError := by
  refine ⟨by rfl, by rfl, by decide⟩

set_option maxRecDepth 4000 in
/-- C8 (amended): with all 100 permits held, `setTimeout` throws a JS
exception (a plain `Error` with message "Timer limit exceeded (max 100)");
the first 100 calls of one evaluation are scheduled and the 101st throws;
`setTimeout` delays are clamped to at most 60000 ms and `setInterval`
delays to [10, 60000] ms. -/
theorem set_timeout_limit_amended :
    (∀ (r : TimerRegistry) (d : Option Nat),
        r.permits = 0 →
        set_timeout r d = .error (.genericError, "Timer limit exceeded (max 100)"))
    ∧ (∀ (r : TimerRegistry) (d : Option Nat) (id : Nat) (r' : TimerRegistry) (eff : Nat),
        set_timeout r d = .ok (id, r', eff) →
        eff = min (d.getD 0) MAX_DELAY_MS ∧ eff ≤ 60000)
    ∧ (∀ (r : TimerRegistry) (d : Option Nat) (id : Nat) (r' : TimerRegistry) (eff : Nat),
        set_interval r d = .ok (id, r', eff) →
        eff = min (max (d.getD 0) 10) MAX_DELAY_MS ∧ 10 ≤ eff ∧ eff ≤ 60000)
    ∧ runTimeouts 100 TimerRegistry.new = some ⟨101, 0⟩ := by
  refine ⟨?_, ?_, ?_, by rfl⟩
  · intro r d h
    simp [set_timeout, try_acquire, h]
  · intro r d id r' eff h
    unfold set_timeout try_acquire at h
    by_cases hp : r.permits = 0
    · rw [if_pos hp] at h
      exact absurd h (by simp)
    · rw [if_neg hp] at h
      simp only [Except.ok.injEq, Prod.mk.injEq] at h
      obtain ⟨-, -, heff⟩ := h
      refine ⟨heff.symm, ?_⟩
      rw [← heff]
      simpa [MAX_DELAY_MS] using Nat.min_le_right (d.getD 0) 60000
  · intro r d id r' eff h
    unfold set_interval try_acquire at h
    by_cases hp : r.permits = 0
    · rw [if_pos hp] at h
      exact absurd h (by simp)
    · rw [if_neg hp] at h
      simp only [Except.ok.injEq, Prod.mk.injEq] at h
      obtain ⟨-, -, heff⟩ := h
      refine ⟨heff.symm, ?_, ?_⟩
      · rw [← heff]
        exact Nat.le_min.mpr ⟨Nat.le_max_right _ _, by decide⟩
      · rw [← heff]
        simpa [MAX_DELAY_MS] using Nat.min_le_right (max (d.getD 0) 10) 60000

/-- Witness for `set_timeout_limit_amended`: exhausted registry, and a
70000 ms request clamped to 60000 ms. -/
theorem set_timeout_limit_amended_witness :
    set_timeout ⟨1, 0⟩ none = .error (.genericError, "Timer limit exceeded (max 100)")
    ∧ (60000 = min ((some (70000 : Nat)).getD 0) MAX_DELAY_MS ∧ 60000 ≤ 60000) :=
  ⟨set_timeout_limit_amended.1 ⟨1, 0⟩ none rfl,
   set_timeout_limit_amended.2.1 TimerRegistry.new (some 70000) 1 ⟨2, 99⟩ 60000 rfl⟩

end Timer

namespace Retry

/-- C9: for every retry attempt n ≥ 1 the computed delay is
initial·multiplier^(n-1) capped at max_delay (multiplier clamped to
[1, 100], exponent capped at 20); with jitter enabled, a draw within
±(delay·jitter_factor clamped to [0,1]) is applied and the result clamped
into [0, max_delay].  The hypothesis on `max_delay_ms` discharges the
defensive `min` against `u64::MAX as f64` (any real `Duration` below about
5.8·10⁸ years satisfies it). -/
theorem calculate_delay_spec (cfg : RetryConfig) (attempt : Nat) (j : ℚ)
    (hatt : 1 ≤ attempt) (hmax : (cfg.max_delay_ms : ℚ) ≤ u64MaxAsF64) :
    (cfg.enable_jitter = false → calculate_delay cfg attempt j = backoffCapped cfg attempt)
    ∧ (cfg.enable_jitter = true →
        jitterInRange cfg (backoffCapped cfg attempt) j →
        calculate_delay cfg attempt j
          = max 0 (min (backoffCapped cfg attempt + j) (cfg.max_delay_ms : ℚ))
        ∧ 0 ≤ calculate_delay cfg attempt j
        ∧ calculate_delay cfg attempt j ≤ (cfg.max_delay_ms : ℚ))
    ∧ 1 ≤ clampedMultiplier cfg ∧ clampedMultiplier cfg ≤ 100 := by
  have hcollapse :
      min (min ((cfg.initial_delay_ms : ℚ) * clampedMultiplier cfg ^ (min ((attempt : ℤ) - 1) 20))
               (cfg.max_delay_ms : ℚ)) u64MaxAsF64
        = backoffCapped cfg attempt := by
    unfold backoffCapped
    exact min_eq_left (le_trans (min_le_right _ _) hmax)
  refine ⟨?_, ?_, ?_, ?_⟩
  · intro hj
    unfold calculate_delay
    simp only [hj, Bool.false_eq_true, if_false]
    unfold clampedMultiplier at hcollapse
    exact hcollapse
  · intro hj hrange
    have heq : calculate_delay cfg attempt j
        = max 0 (min (backoffCapped cfg attempt + j) (cfg.max_delay_ms : ℚ)) := by
      unfold calculate_delay add_jitter
      simp only [hj, if_true]
      unfold clampedMultiplier at hcollapse
      rw [hcollapse]
    refine ⟨heq, ?_, ?_⟩
    · rw [heq]; exact le_max_left _ _
    · rw [heq]
      exact max_le (by positivity) (min_le_right _ _)
  · exact le_min (le_max_right _ _) (by norm_num)
  · exact min_le_right _ _

/-- Witness for `calculate_delay_spec` at the default configuration, second
attempt, zero jitter draw. -/
theorem calculate_delay_spec_witness :
    calculate_delay defaultConfig 2 0
      = max 0 (min (backoffCapped defaultConfig 2 + 0) ((defaultConfig.max_delay_ms : ℚ)))
    ∧ 0 ≤ calculate_delay defaultConfig 2 0
    ∧ calculate_delay defaultConfig 2 0 ≤ (defaultConfig.max_delay_ms : ℚ) :=
  (calculate_delay_spec defaultConfig 2 0 (by norm_num)
      (by norm_num [u64MaxAsF64, defaultConfig])).2.1
    rfl (by norm_num [jitterInRange, backoffCapped, clampedMultiplier, defaultConfig])

end Retry

namespace Monitoring

/-- Inserting a binding for `k` makes `k` look up the new time. -/
theorem cooldownGet_insert_self (m : CooldownMap) (k : CooldownKey) (t : Nat) :
    cooldownGet (cooldownInsert m k t) k = some t := by
  simp [cooldownGet, cooldownInsert, List.find?]

/-- Inserting a binding for `k` does not change what another key looks up. -/
theorem cooldownGet_insert_other (m : CooldownMap) (k k' : CooldownKey) (t : Nat)
    (h : k' ≠ k) : cooldownGet (cooldownInsert m k t) k' = cooldownGet m k' := by
  have hkk' : ¬ k = k' := fun hh => h hh.symm
  have hfind : List.find? (fun p => decide (p.1 = k'))
      (m.filter (fun p => decide (¬ p.1 = k))) = List.find? (fun p => decide (p.1 = k')) m := by
    induction m with
    | nil => rfl
    | cons p ps ih =>
      rw [List.filter_cons]
      by_cases hk : p.1 = k
      · rw [if_neg (by simpa using hk)]
        rw [List.find?_cons_of_neg _ (by simp [hk]; exact hkk')]
        exact ih
      · rw [if_pos (by simpa using hk)]
        by_cases hk' : p.1 = k'
        · rw [List.find?_cons_of_pos _ (by simpa using hk'),
              List.find?_cons_of_pos _ (by simpa using hk')]
        · rw [List.find?_cons_of_neg _ (by simpa using hk'),
              List.find?_cons_of_neg _ (by simpa using hk')]
          exact ih
  unfold cooldownGet cooldownInsert
  rw [List.find?_cons_of_neg _ (by simpa using hkk'), hfind]

/-- After a recorded alert for `key` at time `t₀`, every later recorded
alert for `key` in the trace is at least one cooldown after `t₀`, and the
recorded times always step by at least the cooldown. -/
theorem recordedTimes_chain (C : Nat) (hC : 0 < C) (key : CooldownKey) :
    ∀ (evs : List (CooldownKey × Nat)) (m : CooldownMap),
      List.Chain' (fun a b => a + C ≤ b) (recordedTimes C key m evs)
      ∧ (∀ t₀, cooldownGet m key = some t₀ →
          ∀ t ∈ recordedTimes C key m evs, t₀ + C ≤ t) := by
  intro evs
  induction evs with
  | nil => intro m; exact ⟨List.chain'_nil, by intro t₀ _ t ht; simp [recordedTimes] at ht⟩
  | cons ev evs ih =>
    intro m
    obtain ⟨k, t⟩ := ev
    by_cases hk : k = key
    · subst hk
      rcases hget : cooldownGet m k with - | last
      · -- no prior alert: record at `t`, map now binds `k ↦ t`
        have hstep : trigger_alert C m k t = (cooldownInsert m k t, true) := by
          simp [trigger_alert, hget]
        have hrec : recordedTimes C k m ((k, t) :: evs)
            = t :: recordedTimes C k (cooldownInsert m k t) evs := by
          simp [recordedTimes, hstep]
        rw [hrec]
        have hbound := (ih (cooldownInsert m k t)).2 t (cooldownGet_insert_self m k t)
        refine ⟨List.chain'_cons'.mpr ⟨?_, (ih (cooldownInsert m k t)).1⟩, ?_⟩
        · intro y hy
          exact hbound y (List.mem_of_mem_head? hy)
        · intro t₀ ht₀ t' ht'
          exact absurd ht₀ (by simp)
      · by_cases hcool : t - last < C
        · -- within cooldown: nothing recorded, map unchanged
          have hstep : trigger_alert C m k t = (m, false) := by
            simp [trigger_alert, hget, hcool]
          have hrec : recordedTimes C k m ((k, t) :: evs) = recordedTimes C k m evs := by
            simp [recordedTimes, hstep]
          rw [hrec]
          refine ⟨(ih m).1, ?_⟩
          intro t₀ ht₀ t' ht'
          injection ht₀ with ht₀
          exact (ih m).2 t₀ (ht₀ ▸ hget) t' ht'
        · -- cooldown elapsed: record at `t`, map now binds `k ↦ t`
          have hstep : trigger_alert C m k t = (cooldownInsert m k t, true) := by
            simp [trigger_alert, hget, hcool]
          have hrec : recordedTimes C k m ((k, t) :: evs)
              = t :: recordedTimes C k (cooldownInsert m k t) evs := by
            simp [recordedTimes, hstep]
          rw [hrec]
          have hbound := (ih (cooldownInsert m k t)).2 t (cooldownGet_insert_self m k t)
          refine ⟨List.chain'_cons'.mpr ⟨?_, (ih (cooldownInsert m k t)).1⟩, ?_⟩
          · intro y hy
            exact hbound y (List.mem_of_mem_head? hy)
          · intro t₀ ht₀ t' ht'
            injection ht₀ with ht₀
            have hlast : t₀ + C ≤ t := by omega
            rcases List.mem_cons.mp ht' with rfl | hmem
            · exact hlast
            · exact le_trans (by omega) (hbound t' hmem)
    · -- an event for a different key never records for `key` and preserves
      -- `key`'s binding
      have hother : (trigger_alert C m k t).1 = m ∨
          (trigger_alert C m k t).1 = cooldownInsert m k t := by
        unfold trigger_alert
        cases cooldownGet m k with
        | some last =>
          by_cases hcool : t - last < C
          · simp [hcool]
          · simp [hcool]
        | none => simp
      have hrec : recordedTimes C key m ((k, t) :: evs)
          = recordedTimes C key (trigger_alert C m k t).1 evs := by
        simp [recordedTimes, hk]
      rw [hrec]
      rcases hother with hm | hm <;> rw [hm]
      · exact ih m
      · refine ⟨(ih (cooldownInsert m k t)).1, ?_⟩
        intro t₀ ht₀
        refine (ih (cooldownInsert m k t)).2 t₀ ?_
        rw [cooldownGet_insert_other m k key t (fun hh => hk hh.symm)]
        exact ht₀

/-- C6: once an alert for a `(plugin-id, alert-type)` pair is recorded at
time `t`, any further trigger of that pair within the cooldown interval
records no alert (and leaves the map unchanged); and along any serialized
sequence of trigger sections — which is what the single write-lock critical
section reduces concurrent triggering to — consecutive recorded alerts for a
pair are at least one cooldown apart, so at most one alert is recorded per
pair per cooldown interval. -/
theorem trigger_alert_cooldown (C : Nat) (key : CooldownKey) (hC : 0 < C) :
    (∀ (m : CooldownMap) (t t' : Nat),
        cooldownGet m key = some t → t ≤ t' → t' < t + C →
        trigger_alert C m key t' = (m, false))
    ∧ (∀ (evs : List (CooldownKey × Nat)) (m : CooldownMap),
        List.Chain' (fun a b => a + C ≤ b) (recordedTimes C key m evs)) := by
  constructor
  · intro m t t' hget hle hlt
    have : t' - t < C := by omega
    simp [trigger_alert, hget, this]
  · intro evs m
    exact (recordedTimes_chain C hC key evs m).1

/-- Witness for `trigger_alert_cooldown`: the default 300 s cooldown, an
alert recorded at t=100, re-triggered at t=250. -/
theorem trigger_alert_cooldown_witness :
    trigger_alert 300 [(⟨"p", .highLatency⟩, 100)] ⟨"p", .highLatency⟩ 250
      = ([(⟨"p", .highLatency⟩, 100)], false) :=
  (trigger_alert_cooldown 300 ⟨"p", .highLatency⟩ (by decide)).1
    [(⟨"p", .highLatency⟩, 100)] 100 250 (by decide) (by decide) (by decide)

end Monitoring

namespace Fetch

/-- C10: the injected JS `fetch` never raises: its closure returns a result
object in every branch (its Rust return type is `FetchResultData`, not
`JsResult`), and whenever URL validation fails, the underlying secure fetch
errors, or the 30-second channel wait times out, the returned object has
`ok = false`, `status = 0`, and a body carrying the error message. -/
theorem fetchDispatch_error_results (u : Url) (urlText method : String)
    (recv : RecvOutcome) :
    (∀ e, check_url u = .error e →
        fetchDispatch u urlText method recv =
          { url := urlText, method := method, ok := false, status := 0,
            body := "URL validation failed: " ++ e.display })
    ∧ (∀ u' e, check_url u = .ok u' → recv = .received (.error e) →
        fetchDispatch u urlText method recv =
          { url := urlText, method := method, ok := false, status := 0,
            body := "Fetch error: " ++ e.display })
    ∧ (∀ u', check_url u = .ok u' → recv = .timeout →
        fetchDispatch u urlText method recv =
          { url := urlText, method := method, ok := false, status := 0,
            body := "Fetch timeout" }) := by
  refine ⟨?_, ?_, ?_⟩
  · intro e he
    unfold fetchDispatch
    rw [he]
  · intro u' e hok hrecv
    unfold fetchDispatch
    rw [hok, hrecv]
  · intro u' hok hrecv
    unfold fetchDispatch
    rw [hok, hrecv]

/-- Witness for `fetchDispatch_error_results`: a `ftp://` URL fails
validation and yields the `ok = false`, `status = 0` result object. -/
theorem fetchDispatch_error_results_witness :
    fetchDispatch ⟨"ftp", some (.domain "example.com"), none⟩ "ftp://example.com" "GET"
        .timeout
      = { url := "ftp://example.com", method := "GET", ok := false, status := 0,
          body := "URL validation failed: "
            ++ (FetchError.invalidUrl "Unsupported scheme: ftp").display } :=
  (fetchDispatch_error_results ⟨"ftp", some (.domain "example.com"), none⟩
      "ftp://example.com" "GET" .timeout).1
    (FetchError.invalidUrl "Unsupported scheme: ftp") (by rfl)

end Fetch


namespace Fetch

/-- Whenever a resolved address is available, `do_fetch_with_resolved_ip`
hands the transport exactly one request, built on the per-request client
pinned to that address with redirects and proxies disabled. -/
theorem do_fetch_request_record (u : Url) (addr : SocketAddr) (http : HttpOutcome) :
    (do_fetch_with_resolved_ip u (some addr) http).1
      = some { client := withResolve (withNoProxy (withRedirectNone
                  (withTimeout .builderDefault 30)))
                  (match u.host with | some h => hostText h | none => "") addr,
               url := u, target := addr } := by
  unfold do_fetch_with_resolved_ip
  cases http with
  | netError msg => rfl
  | response status clen chunks =>
    cases clen with
    | none =>
      cases hst : streamBody MAX_RESPONSE_SIZE chunks 0 <;> simp [hst]
    | some len =>
      by_cases hl : len > MAX_RESPONSE_SIZE
      · simp [hl]
      · cases hst : streamBody MAX_RESPONSE_SIZE chunks 0 <;> simp [hl, hst]

/-- `check_resolved_ip` on a domain host that resolved to a private address
fails with the DNS-rebinding error. -/
theorem check_resolved_ip_private (u : Url) (name : String) (addrs : List SocketAddr)
    (hhost : u.host = some (.domain name)) (hparse : parse_ip_addr name = none)
    (hne : ¬ addrs.isEmpty = true)
    (hbad : ∃ bad, addrs.find? (fun a => is_private_ip a.ip) = some bad) :
    check_resolved_ip u (.resolved addrs)
      = (true, .error (.dnsError ("DNS rebinding attack detected: " ++ name ++
          " resolved to private IP"))) := by
  obtain ⟨bad, hbad⟩ := hbad
  unfold check_resolved_ip
  rw [hhost]
  dsimp only [hostText]
  rw [hparse]
  dsimp only
  rw [if_neg hne, hbad]

/-- `check_resolved_ip` on a domain host whose answers are all public pins
the first resolved address. -/
theorem check_resolved_ip_safe (u : Url) (name : String) (a : SocketAddr)
    (addrs : List SocketAddr)
    (hhost : u.host = some (.domain name)) (hparse : parse_ip_addr name = none)
    (hsafe : ∀ x ∈ a :: addrs, is_private_ip x.ip = false) :
    check_resolved_ip u (.resolved (a :: addrs)) = (true, .ok (some a)) := by
  have hfind : (a :: addrs).find? (fun x => is_private_ip x.ip) = none := by
    rw [List.find?_eq_none]
    intro x hx
    simp [hsafe x hx]
  unfold check_resolved_ip
  rw [hhost]
  dsimp only [hostText]
  rw [hparse]
  dsimp only
  rw [if_neg (by simp), hfind]
  rfl

/-- C1: for a fetch of a URL with a domain host (one that passed the URL
check and got a concurrency slot), if DNS resolution returns any address
that is private per the §4.10 predicate then the fetch fails with a
`DnsError` and no HTTP request is sent; otherwise (resolution non-empty)
the request goes through a per-request transport pinned to exactly one of
the resolved addresses, with redirects and proxies disabled.  The
hypothesis `parse_ip_addr name = none` states that the host is a true
domain name rather than an IP literal spelled as a domain (the `url` crate
never produces the latter). -/
theorem secure_fetch_dns_pinning (u : Url) (name : String) (active : Nat)
    (addrs : List SocketAddr) (http : HttpOutcome)
    (hhost : u.host = some (.domain name))
    (hcheck : check_url u = .ok u)
    (hactive : active < MAX_CONCURRENT_REQUESTS)
    (hparse : parse_ip_addr name = none) :
    ((∃ a ∈ addrs, is_private_ip a.ip = true) →
      (∃ msg, (secure_fetch u active (.resolved addrs) http).result
          = .error (.dnsError msg))
      ∧ (secure_fetch u active (.resolved addrs) http).request = none)
    ∧ (addrs ≠ [] → (∀ a ∈ addrs, is_private_ip a.ip = false) →
      ∃ req, (secure_fetch u active (.resolved addrs) http).request = some req
        ∧ req.target ∈ addrs
        ∧ req.client.redirectsDisabled = true
        ∧ req.client.proxyDisabled = true
        ∧ req.client.resolvePin = some (name, req.target)) := by
  have hguard : ¬ active ≥ MAX_CONCURRENT_REQUESTS := Nat.not_le.mpr hactive
  constructor
  · rintro ⟨a, ha, hpriv⟩
    have hne : ¬ addrs.isEmpty = true := by
      cases addrs with
      | nil => cases ha
      | cons x xs => simp
    have hfind : (addrs.find? (fun a => is_private_ip a.ip)).isSome := by
      rw [List.find?_isSome]
      exact ⟨a, ha, hpriv⟩
    have hcri := check_resolved_ip_private u name addrs hhost hparse hne
      (Option.isSome_iff_exists.mp hfind)
    have hsf : secure_fetch u active (.resolved addrs) http
        = { result := .error (.dnsError ("DNS rebinding attack detected: " ++ name ++
              " resolved to private IP")),
            dnsQueried := true, request := none } := by
      unfold secure_fetch
      rw [hcheck]
      dsimp only
      rw [if_neg hguard, hcri]
    rw [hsf]
    exact ⟨⟨_, rfl⟩, rfl⟩
  · intro hne hsafe
    cases addrs with
    | nil => exact absurd rfl hne
    | cons a as =>
      have hcri := check_resolved_ip_safe u name a as hhost hparse hsafe
      have hreq := do_fetch_request_record u a http
      refine ⟨{ client := withResolve (withNoProxy (withRedirectNone
                  (withTimeout .builderDefault 30)))
                  (match u.host with | some h => hostText h | none => "") a,
                url := u, target := a }, ?_, ?_, ?_, ?_, ?_⟩
      · show (secure_fetch u active (.resolved (a :: as)) http).request = _
        unfold secure_fetch
        rw [hcheck]
        dsimp only
        rw [if_neg hguard, hcri]
        dsimp only
        exact hreq
      · exact List.mem_cons_self a as
      · rfl
      · rfl
      · show some ((match u.host with | some h => hostText h | none => ""), a)
            = some (name, a)
        rw [hhost]
        rfl

end Fetch

namespace Fetch

/-- Witness for `secure_fetch_dns_pinning`: `https://example.com` resolving
to the public address 93.184.216.34:443. -/
theorem secure_fetch_dns_pinning_witness :
    ∃ req, (secure_fetch ⟨"https", some (.domain "example.com"), none⟩ 0
          (.resolved [⟨.v4 ⟨93, 184, 216, 34⟩, 443⟩]) (.netError "refused")).request
        = some req
      ∧ req.target ∈ [(⟨.v4 ⟨93, 184, 216, 34⟩, 443⟩ : SocketAddr)]
      ∧ req.client.redirectsDisabled = true
      ∧ req.client.proxyDisabled = true
      ∧ req.client.resolvePin = some ("example.com", req.target) :=
  (secure_fetch_dns_pinning ⟨"https", some (.domain "example.com"), none⟩ "example.com"
      0 [⟨.v4 ⟨93, 184, 216, 34⟩, 443⟩] (.netError "refused")
      rfl (by rfl) (by decide) (by rfl)).2
    (by simp) (by decide)

end Fetch

namespace Fetch

/-- Every rejection of `check_url` is an `InvalidUrl` error. -/
theorem check_url_error_invalid (u : Url) (e : FetchError)
    (h : check_url u = .error e) : ∃ msg, e = .invalidUrl msg := by
  unfold check_url at h
  split at h
  · exact ⟨_, by injection h with h; exact h.symm⟩
  · cases hh : u.host with
    | none =>
      rw [hh] at h
      dsimp only at h
      exact ⟨_, by injection h with h; exact h.symm⟩
    | some hostv =>
      rw [hh] at h
      dsimp only at h
      split at h
      · exact ⟨_, by injection h with h; exact h.symm⟩
      · split at h
        · exact ⟨_, by injection h with h; exact h.symm⟩
        · split at h
          · exact ⟨_, by injection h with h; exact h.symm⟩
          · split at h
            · exact ⟨_, by injection h with h; exact h.symm⟩
            · exact absurd h (by simp)

/-- Everything `check_url` must have verified in order to accept a URL. -/
theorem check_url_ok_conditions (u u' : Url) (h : check_url u = .ok u') :
    (u.scheme = "http" ∨ u.scheme = "https")
    ∧ (∀ a, u.host = some (.ipv4 a) → is_private_ipv4 a = false)
    ∧ (∀ a, u.host = some (.ipv6 a) → is_private_ipv6 a = false)
    ∧ (∀ name, u.host = some (.domain name) →
        listEndsWith (name.data.map Char.toLower) ".local".data = false
        ∧ listEndsWith (name.data.map Char.toLower) ".internal".data = false
        ∧ listEndsWith (name.data.map Char.toLower) ".localhost".data = false
        ∧ listContainsSub (name.data.map Char.toLower) "169.254.".data = false) := by
  unfold check_url at h
  by_cases hs : ¬ (u.scheme = "http" ∨ u.scheme = "https")
  · rw [if_pos hs] at h
    exact absurd h (by simp)
  · rw [if_neg hs] at h
    cases hh : u.host with
    | none =>
      rw [hh] at h
      exact absurd h (by simp)
    | some hostv =>
      rw [hh] at h
      dsimp only at h
      cases hostv with
      | ipv4 a =>
        dsimp only at h
        split at h
        next => exact absurd h (by simp)
        next h1 =>
          split at h
          next => exact absurd h (by simp)
          next h2 =>
            split at h
            next => exact absurd h (by simp)
            next h3 =>
              split at h
              next => exact absurd h (by simp)
              next h4 =>
                refine ⟨not_not.mp hs, ?_, ?_, ?_⟩
                · intro a' ha'
                  injection ha' with ha'
                  injection ha' with ha'
                  subst ha'
                  simpa [is_private_ip] using h2
                · intro a' ha'
                  exact absurd ha' (by simp)
                · intro name hn
                  exact absurd hn (by simp)
      | ipv6 a =>
        dsimp only at h
        split at h
        next => exact absurd h (by simp)
        next h1 =>
          split at h
          next => exact absurd h (by simp)
          next h2 =>
            split at h
            next => exact absurd h (by simp)
            next h3 =>
              split at h
              next => exact absurd h (by simp)
              next h4 =>
                refine ⟨not_not.mp hs, ?_, ?_, ?_⟩
                · intro a' ha'
                  exact absurd ha' (by simp)
                · intro a' ha'
                  injection ha' with ha'
                  injection ha' with ha'
                  subst ha'
                  simpa [is_private_ip] using h2
                · intro name hn
                  exact absurd hn (by simp)
      | domain dname =>
        dsimp only at h
        split at h
        next => exact absurd h (by simp)
        next h1 =>
          split at h
          next => exact absurd h (by simp)
          next h2 =>
            split at h
            next => exact absurd h (by simp)
            next h3 =>
              split at h
              next => exact absurd h (by simp)
              next h4 =>
                push_neg at h4
                obtain ⟨h4a, h4b, h4c, h4d⟩ := h4
                refine ⟨not_not.mp hs, ?_, ?_, ?_⟩
                · intro a' ha'
                  exact absurd ha' (by simp)
                · intro a' ha'
                  exact absurd ha' (by simp)
                · intro name hn
                  injection hn with hn
                  injection hn with hn
                  subst hn
                  exact ⟨by simpa [hostText] using h4a, by simpa [hostText] using h4b,
                         by simpa [hostText] using h4c, by simpa [hostText] using h4d⟩

/-- C2: a URL with a non-http(s) scheme, a literal IP host in any of the
private/loopback/link-local/CGNAT/documentation/multicast/broadcast/
unspecified/reserved IPv4 classes or the private/reserved IPv6 classes
(both summed up by the §4.10 predicate `is_private_ip`), or a textual host
ending in `.local`/`.internal`/`.localhost` or containing `169.254.`, is
rejected by the URL check, and the fetch fails before any DNS resolution
or socket is opened (no DNS query, no request handed to a transport). -/
theorem check_url_rejects_before_dns (u : Url) (active : Nat) (dns : DnsOutcome)
    (http : HttpOutcome)
    (h : (¬ (u.scheme = "http" ∨ u.scheme = "https"))
       ∨ (∃ a, u.host = some (.ipv4 a) ∧ is_private_ipv4 a = true)
       ∨ (∃ a, u.host = some (.ipv6 a) ∧ is_private_ipv6 a = true)
       ∨ (∃ name, u.host = some (.domain name) ∧
           (listEndsWith (name.data.map Char.toLower) ".local".data = true
            ∨ listEndsWith (name.data.map Char.toLower) ".internal".data = true
            ∨ listEndsWith (name.data.map Char.toLower) ".localhost".data = true
            ∨ listContainsSub (name.data.map Char.toLower) "169.254.".data = true))) :
    (∃ msg, check_url u = .error (.invalidUrl msg))
    ∧ (secure_fetch u active dns http).dnsQueried = false
    ∧ (secure_fetch u active dns http).request = none
    ∧ (∃ msg, (secure_fetch u active dns http).result = .error (.invalidUrl msg)) := by
  have herr : ∃ msg, check_url u = .error (.invalidUrl msg) := by
    cases hcu : check_url u with
    | error e =>
      obtain ⟨msg, rfl⟩ := check_url_error_invalid u e hcu
      exact ⟨msg, rfl⟩
    | ok v =>
      exfalso
      obtain ⟨hsch, hv4, hv6, hdom⟩ := check_url_ok_conditions u v hcu
      rcases h with h | ⟨a, ha, hp⟩ | ⟨a, ha, hp⟩ | ⟨name, hn, hsuf⟩
      · exact h hsch
      · rw [hv4 a ha] at hp
        cases hp
      · rw [hv6 a ha] at hp
        cases hp
      · obtain ⟨h1, h2, h3, h4⟩ := hdom name hn
        rcases hsuf with hs | hs | hs | hs <;> simp_all
  obtain ⟨msg, hmsg⟩ := herr
  have hsf : secure_fetch u active dns http
      = { result := .error (.invalidUrl msg), dnsQueried := false, request := none } := by
    unfold secure_fetch
    rw [hmsg]
  exact ⟨⟨msg, hmsg⟩, by rw [hsf], by rw [hsf], ⟨msg, by rw [hsf]⟩⟩

/-- Witness for `check_url_rejects_before_dns`: `http://192.168.1.1/` (an
RFC 1918 private literal) is rejected with no DNS query and no request. -/
theorem check_url_rejects_before_dns_witness :
    (∃ msg, check_url ⟨"http", some (.ipv4 ⟨192, 168, 1, 1⟩), none⟩
        = .error (.invalidUrl msg))
    ∧ (secure_fetch ⟨"http", some (.ipv4 ⟨192, 168, 1, 1⟩), none⟩ 0
        (.resolved []) (.netError "x")).dnsQueried = false
    ∧ (secure_fetch ⟨"http", some (.ipv4 ⟨192, 168, 1, 1⟩), none⟩ 0
        (.resolved []) (.netError "x")).request = none
    ∧ (∃ msg, (secure_fetch ⟨"http", some (.ipv4 ⟨192, 168, 1, 1⟩), none⟩ 0
        (.resolved []) (.netError "x")).result = .error (.invalidUrl msg)) :=
  check_url_rejects_before_dns ⟨"http", some (.ipv4 ⟨192, 168, 1, 1⟩), none⟩ 0
    (.resolved []) (.netError "x")
    (Or.inr (Or.inl ⟨⟨192, 168, 1, 1⟩, rfl, by decide⟩))

end Fetch

namespace Extractor

/-- If the `pre_validate` loop succeeds, every entry passed its per-entry
check. -/
theorem preValidateLoop_ok_entryCheck (cfg : SecureExtractor) :
    ∀ (es : List ZipEntry) (total tot : Nat),
      preValidateLoop cfg es total = .ok tot →
      ∀ e ∈ es, entryCheck cfg e = none := by
  intro es
  induction es with
  | nil => intro total tot _ e he; cases he
  | cons e es ih =>
    intro total tot h e' he'
    unfold preValidateLoop at h
    cases hc : entryCheck cfg e with
    | some err => rw [hc] at h; cases h
    | none =>
      rw [hc] at h
      dsimp only at h
      rcases List.mem_cons.mp he' with rfl | hmem
      · exact hc
      · exact ih (total + entryDeclared e) tot h e' hmem

/-- A passing per-entry check of a non-directory entry means the entry has a
safe name with a whitelisted extension. -/
theorem entryCheck_none_allowed (cfg : SecureExtractor) (e : ZipEntry) (name : String)
    (hc : entryCheck cfg e = none) (hn : e.enclosedName = some name)
    (hd : e.isDir = false) : is_allowed_extension cfg name = true := by
  unfold entryCheck at hc
  split at hc
  next heq => cases hc
  next name' heq =>
    have hname : name' = name := by
      rw [hn] at heq
      injection heq with heq
      exact heq.symm
    subst hname
    split at hc
    next => cases hc
    next hsym =>
      split at hc
      next hdir =>
        rw [hd] at hdir
        cases hdir
      next hdir =>
        split at hc
        next => cases hc
        next hext => exact not_not.mp hext

/-- Invariant of the extraction loop: starting from an accumulator of
whitelisted files whose byte sum is the running total (itself within the
cap), a successful run produces only whitelisted files with total written
size within the cap. -/
theorem extractLoop_inv (cfg : SecureExtractor) :
    ∀ (es : List ZipEntry) (acc : List (String × Nat)) (total : Nat)
      (files : List (String × Nat)),
      (∀ e ∈ es, entryCheck cfg e = none) →
      (∀ p ∈ acc, is_allowed_extension cfg p.1 = true) →
      (acc.map Prod.snd).sum = total →
      total ≤ cfg.max_total_size →
      extractLoop cfg es acc total = .ok files →
      (∀ p ∈ files, is_allowed_extension cfg p.1 = true)
      ∧ (files.map Prod.snd).sum ≤ cfg.max_total_size := by
  intro es
  induction es with
  | nil =>
    intro acc total files _ hacc hsum htot h
    unfold extractLoop at h
    injection h with h
    subst h
    constructor
    · intro p hp
      exact hacc p (List.mem_reverse.mp hp)
    · rw [List.map_reverse, List.sum_reverse, hsum]
      exact htot
  | cons e es ih =>
    intro acc total files hval hacc hsum htot h
    have hce : entryCheck cfg e = none := hval e (List.mem_cons_self e es)
    have hval' : ∀ x ∈ es, entryCheck cfg x = none :=
      fun x hx => hval x (List.mem_cons_of_mem e hx)
    unfold extractLoop at h
    cases hn : e.enclosedName with
    | none =>
      rw [hn] at h
      cases h
    | some name =>
      rw [hn] at h
      dsimp only at h
      by_cases hd : e.isDir = true
      · rw [if_pos hd] at h
        exact ih acc total files hval' hacc hsum htot h
      · rw [if_neg hd] at h
        by_cases hbig : min e.actualSize (cfg.max_file_size + 1) > cfg.max_file_size
        · rw [if_pos hbig] at h
          cases h
        · rw [if_neg hbig] at h
          by_cases htb : total + min e.actualSize (cfg.max_file_size + 1) > cfg.max_total_size
          · rw [if_pos htb] at h
            cases h
          · rw [if_neg htb] at h
            refine ih ((name, min e.actualSize (cfg.max_file_size + 1)) :: acc)
              (total + min e.actualSize (cfg.max_file_size + 1)) files hval' ?_ ?_ ?_ h
            · intro p hp
              rcases List.mem_cons.mp hp with rfl | hmem
              · exact entryCheck_none_allowed cfg e name hce hn (by simpa using hd)
              · exact hacc p hmem
            · simp [hsum]
              omega
            · omega

/-- If the entries before a traversal entry all pass their per-entry checks,
the `pre_validate` loop stops exactly at the traversal entry. -/
theorem preValidateLoop_traversal (cfg : SecureExtractor) (bad : ZipEntry)
    (post : List ZipEntry) (hbad : bad.enclosedName = none) :
    ∀ (pre : List ZipEntry) (total : Nat),
      (∀ e ∈ pre, entryCheck cfg e = none) →
      preValidateLoop cfg (pre ++ bad :: post) total
        = .error (.pathTraversal bad.rawName) := by
  intro pre
  induction pre with
  | nil =>
    intro total _
    have hstep : entryCheck cfg bad = some (.pathTraversal bad.rawName) := by
      unfold entryCheck
      rw [hbad]
    unfold preValidateLoop
    rw [List.nil_append]
    dsimp only
    rw [hstep]
  | cons e pre ih =>
    intro total hval
    unfold preValidateLoop
    rw [List.cons_append]
    dsimp only
    rw [hval e (List.mem_cons_self e pre)]
    exact ih (total + entryDeclared e) (fun x hx => hval x (List.mem_cons_of_mem e hx))

/-- C3 counterexample: an archive whose first entry has a non-whitelisted
extension and whose second entry is a `..` path fails pre-validation with
`FileTypeNotAllowed`, not `PathTraversal`, although it contains a `..`
entry; the claim's "yields PathTraversal" is therefore too strong. -/
theorem extract_traversal_counterexample :
    (extract SecureExtractor.new
      [{ rawName := "mal.exe", enclosedName := some "mal.exe", isSymlink := false,
         isDir := false, declaredSize := 4, actualSize := 4 },
       { rawName := "../evil.js", enclosedName := none, isSymlink := false,
         isDir := false, declaredSize := 4, actualSize := 4 }] none).1
      = .error (.fileTypeNotAllowed "mal.exe" "exe")
    ∧ (extract SecureExtractor.new
      [{ rawName := "mal.exe", enclosedName := some "mal.exe", isSymlink := false,
         isDir := false, declaredSize := 4, actualSize := 4 },
       { rawName := "../evil.js", enclosedName := none, isSymlink := false,
         isDir := false, declaredSize := 4, actualSize := 4 }] none).1
      ≠ .error (.pathTraversal "../evil.js") := by
  constructor
  · rfl
  · intro h
    rw [show (extract SecureExtractor.new
      [{ rawName := "mal.exe", enclosedName := some "mal.exe", isSymlink := false,
         isDir := false, declaredSize := 4, actualSize := 4 },
       { rawName := "../evil.js", enclosedName := none, isSymlink := false,
         isDir := false, declaredSize := 4, actualSize := 4 }] none).1
      = .error (.fileTypeNotAllowed "mal.exe" "exe") from rfl] at h
    simp at h

/-- C3 (amended): extracting into a nonexistent target either completes
with the target holding only files with whitelisted extensions and an
actually-written total of at most 50 MiB, or fails leaving the target
nonexistent; and an archive within the entry-count bound whose entries
before the first `..`/absolute entry all pass per-entry validation yields
`PathTraversal` before any file is written to the target. -/
theorem extract_amended :
    (∀ (entries : List ZipEntry) (res : Except SecurityError Unit)
        (tgt : Option (List (String × Nat))),
      extract SecureExtractor.new entries none = (res, tgt) →
      (∀ files, tgt = some files →
        res = .ok ()
        ∧ (∀ p ∈ files, is_allowed_extension SecureExtractor.new p.1 = true)
        ∧ (files.map Prod.snd).sum ≤ SecureExtractor.new.max_total_size)
      ∧ (∀ e, res = .error e → tgt = none))
    ∧ (∀ (pre : List ZipEntry) (bad : ZipEntry) (post : List ZipEntry),
        (pre ++ bad :: post).length ≤ SecureExtractor.new.max_entries →
        (∀ e ∈ pre, entryCheck SecureExtractor.new e = none) →
        bad.enclosedName = none →
        extract SecureExtractor.new (pre ++ bad :: post) none
          = (.error (.pathTraversal bad.rawName), none)) := by
  constructor
  · intro entries res tgt h
    unfold extract at h
    cases hpv : pre_validate SecureExtractor.new entries with
    | error e =>
      rw [hpv] at h
      injection h with h1 h2
      subst h1
      subst h2
      exact ⟨fun files hf => absurd hf (by simp), fun e _ => rfl⟩
    | ok _ =>
      rw [hpv] at h
      dsimp only at h
      cases het : extract_to_temp SecureExtractor.new entries with
      | error e =>
        rw [het] at h
        injection h with h1 h2
        subst h1
        subst h2
        exact ⟨fun files hf => absurd hf (by simp), fun e _ => rfl⟩
      | ok files =>
        rw [het] at h
        injection h with h1 h2
        subst h1
        subst h2
        refine ⟨?_, ?_⟩
        · intro files' hf
          have hff : files' = files := by
            injection hf with hf
            exact hf.symm
          rw [hff]
          have hval : ∀ e ∈ entries, entryCheck SecureExtractor.new e = none := by
            unfold pre_validate at hpv
            by_cases hle : entries.length > SecureExtractor.new.max_entries
            · rw [if_pos hle] at hpv; cases hpv
            · rw [if_neg hle] at hpv
              cases hloop : preValidateLoop SecureExtractor.new entries 0 with
              | error e => rw [hloop] at hpv; cases hpv
              | ok tot =>
                exact preValidateLoop_ok_entryCheck SecureExtractor.new entries 0 tot hloop
          have := extractLoop_inv SecureExtractor.new entries [] 0 files hval
            (by intro p hp; cases hp) rfl (by norm_num [SecureExtractor.new]) het
          exact ⟨rfl, this.1, this.2⟩
        · intro e he
          cases he
  · intro pre bad post hlen hval hbad
    unfold extract pre_validate
    rw [if_neg (by omega)]
    rw [preValidateLoop_traversal SecureExtractor.new bad post hbad pre 0 hval]

/-- Witness for `extract_amended`: a single-file `plugin.js` archive
extracts successfully; an archive whose sole entry is `../evil.js` yields
`PathTraversal` with the target untouched. -/
theorem extract_amended_witness :
    ((Except.ok () : Except SecurityError Unit) = .ok ()
      ∧ (∀ p ∈ [("plugin.js", (4 : Nat))],
          is_allowed_extension SecureExtractor.new p.1 = true)
      ∧ ([("plugin.js", (4 : Nat))].map Prod.snd).sum
          ≤ SecureExtractor.new.max_total_size)
    ∧ extract SecureExtractor.new
        [{ rawName := "../evil.js", enclosedName := none, isSymlink := false,
           isDir := false, declaredSize := 4, actualSize := 4 }] none
        = (.error (.pathTraversal "../evil.js"), none) :=
  ⟨((extract_amended.1
      [{ rawName := "plugin.js", enclosedName := some "plugin.js", isSymlink := false,
         isDir := false, declaredSize := 4, actualSize := 4 }]
      (.ok ()) (some [("plugin.js", 4)]) (by rfl)).1 [("plugin.js", 4)] rfl),
   extract_amended.2 []
     { rawName := "../evil.js", enclosedName := none, isSymlink := false,
       isDir := false, declaredSize := 4, actualSize := 4 }
     [] (by norm_num [SecureExtractor.new]) (by intro e he; cases he) rfl⟩

end Extractor

namespace Canonical

/-- Every JSON value has positive size. -/
theorem json_sizeOf_pos (a : Json) : 0 < sizeOf a := by
  cases a <;> simp_arith

/-- An array element is smaller than the array. -/
theorem sizeOf_lt_of_mem_arr {v : Json} {xs : List Json} (h : v ∈ xs) :
    sizeOf v < sizeOf (Json.arr xs) := by
  induction xs with
  | nil => cases h
  | cons x xs ih =>
    rcases List.mem_cons.mp h with rfl | hmem
    · simp_arith
    · have := ih hmem
      simp_arith at this ⊢
      omega

/-- A field's value is smaller than the object. -/
theorem sizeOf_lt_of_mem_obj {p : List Char × Json} {fs : List (List Char × Json)}
    (h : p ∈ fs) : sizeOf p.2 < sizeOf (Json.obj fs) := by
  induction fs with
  | nil => cases h
  | cons q fs ih =>
    rcases List.mem_cons.mp h with rfl | hmem
    · obtain ⟨k, v⟩ := p
      simp_arith
    · have := ih hmem
      simp_arith at this ⊢
      omega

/-- `wfArr` gives well-formedness of each element. -/
theorem wfArr_mem {xs : List Json} (h : wfArr xs = true) :
    ∀ v ∈ xs, wellFormed v = true := by
  induction xs with
  | nil => intro v hv; cases hv
  | cons x xs ih =>
    unfold wfArr at h
    rw [Bool.and_eq_true] at h
    intro v hv
    rcases List.mem_cons.mp hv with rfl | hmem
    · exact h.1
    · exact ih h.2 v hmem

/-- `wfFields` gives well-formedness of each field value. -/
theorem wfFields_mem {fs : List (List Char × Json)} (h : wfFields fs = true) :
    ∀ p ∈ fs, wellFormed p.2 = true := by
  induction fs with
  | nil => intro p hp; cases hp
  | cons q fs ih =>
    obtain ⟨k, v⟩ := q
    unfold wfFields at h
    rw [Bool.and_eq_true] at h
    intro p hp
    rcases List.mem_cons.mp hp with rfl | hmem
    · exact h.1
    · exact ih h.2 p hmem

/-- `canonFields` keeps the keys. -/
theorem canonFields_map_fst (fs : List (List Char × Json)) :
    (canonFields fs).map Prod.fst = fs.map Prod.fst := by
  induction fs with
  | nil => rfl
  | cons q fs ih =>
    obtain ⟨k, v⟩ := q
    unfold canonFields
    simp [ih]

/-- Removing the matched field permutes the rendered fields accordingly. -/
theorem extractKey_perm (k : List Char) (w : Json) :
    ∀ (ys rest : List (List Char × Json)),
      extractKey k ys = some (w, rest) →
      List.Perm (canonFields ys) ((k, canonicalize w) :: canonFields rest) := by
  intro ys
  induction ys with
  | nil => intro rest h; cases h
  | cons q fs ih =>
    obtain ⟨k', v'⟩ := q
    intro rest h
    unfold extractKey at h
    by_cases hk : (k' == k) = true
    · rw [if_pos hk] at h
      injection h with h
      injection h with h1 h2
      subst h1
      subst h2
      have : k' = k := eq_of_beq hk
      subst this
      exact List.Perm.refl _
    · rw [if_neg hk] at h
      cases hek : extractKey k fs with
      | none =>
        rw [hek] at h
        cases h
      | some pr =>
        obtain ⟨w', rest'⟩ := pr
        rw [hek] at h
        dsimp only at h
        injection h with h
        injection h with h1 h2
        subst h1
        subst h2
        have hih := ih rest' hek
        refine List.Perm.trans (hih.cons ((k', canonicalize v'))) ?_
        exact List.Perm.swap _ _ _

/-- Map-equal field lists have permutation-equal rendered fields, given that
each left value canonicalizes equally to any semantically equal value. -/
theorem semEqFields_perm :
    ∀ (xs ys : List (List Char × Json)),
      (∀ p ∈ xs, ∀ b : Json, wellFormed p.2 = true → semEq p.2 b = true →
        canonicalize p.2 = canonicalize b) →
      wfFields xs = true →
      semEqFields xs ys = true →
      List.Perm (canonFields xs) (canonFields ys) := by
  intro xs
  induction xs with
  | nil =>
    intro ys _ _ h
    unfold semEqFields at h
    rw [List.isEmpty_iff] at h
    subst h
    exact List.Perm.refl _
  | cons q xs ih =>
    obtain ⟨k, v⟩ := q
    intro ys hIH hwf h
    unfold semEqFields at h
    cases hek : extractKey k ys with
    | none =>
      rw [hek] at h
      cases h
    | some pr =>
      obtain ⟨w, rest⟩ := pr
      rw [hek] at h
      dsimp only at h
      rw [Bool.and_eq_true] at h
      unfold wfFields at hwf
      rw [Bool.and_eq_true] at hwf
      have hvw : canonicalize v = canonicalize w :=
        hIH (k, v) (List.mem_cons_self _ _) w hwf.1 h.1
      have hperm : List.Perm (canonFields xs) (canonFields rest) :=
        ih rest (fun p hp => hIH p (List.mem_cons_of_mem _ hp)) hwf.2 h.2
      have hys := extractKey_perm k w ys rest hek
      have hstep : List.Perm (canonFields ((k, v) :: xs))
          ((k, canonicalize w) :: canonFields rest) := by
        show List.Perm ((k, canonicalize v) :: canonFields xs)
          ((k, canonicalize w) :: canonFields rest)
        rw [hvw]
        exact hperm.cons _
      exact hstep.trans hys.symm

/-- Pointwise semantically equal arrays render identically, given the same
per-element hypothesis. -/
theorem semEqArr_canonArr :
    ∀ (xs ys : List Json),
      (∀ v ∈ xs, ∀ b : Json, wellFormed v = true → semEq v b = true →
        canonicalize v = canonicalize b) →
      wfArr xs = true →
      semEqArr xs ys = true →
      canonArr xs = canonArr ys := by
  intro xs
  induction xs with
  | nil =>
    intro ys _ _ h
    cases ys with
    | nil => rfl
    | cons y ys => cases h
  | cons x xs ih =>
    intro ys hIH hwf h
    cases ys with
    | nil => cases h
    | cons y ys =>
      unfold semEqArr at h
      rw [Bool.and_eq_true] at h
      unfold wfArr at hwf
      rw [Bool.and_eq_true] at hwf
      unfold canonArr
      rw [hIH x (List.mem_cons_self _ _) y hwf.1 h.1,
          ih ys (fun v hv => hIH v (List.mem_cons_of_mem _ hv)) hwf.2 h.2]

end Canonical

namespace Canonical

/-- Sorting the rendered fields is a permutation. -/
theorem sortPairs_perm (l : List (List Char × List Char)) :
    List.Perm (sortPairs l) l :=
  List.perm_insertionSort keyLe l

/-- The rendered fields come out sorted by key. -/
theorem sortPairs_sorted (l : List (List Char × List Char)) :
    List.Sorted keyLe (sortPairs l) :=
  List.sorted_insertionSort keyLe l

/-- With pairwise-distinct keys the sort is strictly sorted by key. -/
theorem sortPairs_strictSorted (l : List (List Char × List Char))
    (hnd : (l.map Prod.fst).Nodup) : List.Sorted keyLt (sortPairs l) := by
  have hs : List.Pairwise keyLe (sortPairs l) := sortPairs_sorted l
  have hnd' : ((sortPairs l).map Prod.fst).Nodup :=
    ((sortPairs_perm l).map Prod.fst).nodup_iff.mpr hnd
  have hne : (sortPairs l).Pairwise (fun p q => p.1 ≠ q.1) :=
    List.pairwise_map.mp hnd'
  exact (List.Pairwise.and hs hne).imp (fun h => lt_of_le_of_ne h.1 h.2)

/-- Sorting is order-determined on permutation-equal field lists with
distinct keys. -/
theorem sortPairs_eq_of_perm (l₁ l₂ : List (List Char × List Char))
    (h : List.Perm l₁ l₂) (hnd : (l₁.map Prod.fst).Nodup) :
    sortPairs l₁ = sortPairs l₂ := by
  have hnd₂ : (l₂.map Prod.fst).Nodup := ((h.map Prod.fst).nodup_iff).mp hnd
  have hp : List.Perm (sortPairs l₁) (sortPairs l₂) :=
    (sortPairs_perm l₁).trans (h.trans (sortPairs_perm l₂).symm)
  exact List.eq_of_perm_of_sorted hp (sortPairs_strictSorted l₁ hnd)
    (sortPairs_strictSorted l₂ hnd₂)

/-- The emitted key sequence of a canonical object is ascending. -/
theorem sortPairs_keys_sorted (l : List (List Char × List Char)) :
    List.Sorted (· ≤ ·) ((sortPairs l).map Prod.fst) :=
  List.pairwise_map.mpr ((sortPairs_sorted l).imp (fun h => h))

/-- Semantically equal well-formed JSON values canonicalize identically
(strong induction on the size of the left value). -/
theorem semEq_canonicalize_aux :
    ∀ (n : Nat) (a b : Json), sizeOf a ≤ n → wellFormed a = true → semEq a b = true →
      canonicalize a = canonicalize b := by
  intro n
  induction n with
  | zero =>
    intro a b hsz
    have := json_sizeOf_pos a
    omega
  | succ n ihn =>
    intro a b hsz hwf hse
    cases a with
    | null =>
      cases b <;> first
        | rfl
        | (exact absurd hse (by simp [semEq]))
    | bool x =>
      cases b with
      | bool y =>
        unfold semEq at hse
        rw [beq_iff_eq] at hse
        rw [hse]
      | null => exact absurd hse (by simp [semEq])
      | num y => exact absurd hse (by simp [semEq])
      | str y => exact absurd hse (by simp [semEq])
      | arr y => exact absurd hse (by simp [semEq])
      | obj y => exact absurd hse (by simp [semEq])
    | num x =>
      cases b with
      | num y =>
        unfold semEq at hse
        rw [beq_iff_eq] at hse
        rw [show canonicalize (.num x) = x from rfl,
            show canonicalize (.num y) = y from rfl, hse]
      | null => exact absurd hse (by simp [semEq])
      | bool y => exact absurd hse (by simp [semEq])
      | str y => exact absurd hse (by simp [semEq])
      | arr y => exact absurd hse (by simp [semEq])
      | obj y => exact absurd hse (by simp [semEq])
    | str x =>
      cases b with
      | str y =>
        unfold semEq at hse
        rw [beq_iff_eq] at hse
        rw [hse]
      | null => exact absurd hse (by simp [semEq])
      | bool y => exact absurd hse (by simp [semEq])
      | num y => exact absurd hse (by simp [semEq])
      | arr y => exact absurd hse (by simp [semEq])
      | obj y => exact absurd hse (by simp [semEq])
    | arr xs =>
      cases b with
      | arr ys =>
        unfold semEq at hse
        unfold wellFormed at hwf
        have harr : canonArr xs = canonArr ys := by
          refine semEqArr_canonArr xs ys ?_ hwf hse
          intro v hv b' hw hs
          refine ihn v b' ?_ hw hs
          have := sizeOf_lt_of_mem_arr hv
          omega
        show '[' :: commaJoin (canonArr xs) ++ [']']
            = '[' :: commaJoin (canonArr ys) ++ [']']
        rw [harr]
      | null => exact absurd hse (by simp [semEq])
      | bool y => exact absurd hse (by simp [semEq])
      | num y => exact absurd hse (by simp [semEq])
      | str y => exact absurd hse (by simp [semEq])
      | obj y => exact absurd hse (by simp [semEq])
    | obj fs =>
      cases b with
      | obj gs =>
        unfold semEq at hse
        unfold wellFormed at hwf
        rw [Bool.and_eq_true] at hwf
        have hperm : List.Perm (canonFields fs) (canonFields gs) := by
          refine semEqFields_perm fs gs ?_ hwf.2 hse
          intro p hp b' hw hs
          refine ihn p.2 b' ?_ hw hs
          have := sizeOf_lt_of_mem_obj hp
          omega
        have hnd : ((canonFields fs).map Prod.fst).Nodup := by
          rw [canonFields_map_fst]
          exact of_decide_eq_true hwf.1
        have hsort : sortPairs (canonFields fs) = sortPairs (canonFields gs) :=
          sortPairs_eq_of_perm _ _ hperm hnd
        show lbrace :: commaJoin ((sortPairs (canonFields fs)).map renderField) ++ [rbrace]
            = lbrace :: commaJoin ((sortPairs (canonFields gs)).map renderField) ++ [rbrace]
        rw [hsort]
      | null => exact absurd hse (by simp [semEq])
      | bool y => exact absurd hse (by simp [semEq])
      | num y => exact absurd hse (by simp [semEq])
      | str y => exact absurd hse (by simp [semEq])
      | arr y => exact absurd hse (by simp [semEq])

end Canonical

namespace Canonical

/-- Hex digits are not whitespace. -/
theorem hexDigit_not_ws (n : Nat) (h : n < 16) : jsonWs (hexDigit n) = false := by
  interval_cases n <;> decide

/-- Escaping a non-whitespace character yields no whitespace characters. -/
theorem escapeChar_not_ws (c : Char) (h : jsonWs c = false) :
    ∀ c' ∈ escapeChar c, jsonWs c' = false := by
  intro c' hc'
  unfold escapeChar at hc'
  split_ifs at hc' with h1 h2 h3 h4 h5 h6 h7 h8
  · rcases List.mem_cons.mp hc' with rfl | hh
    · decide
    · rcases List.mem_cons.mp hh with rfl | hh
      · decide
      · cases hh
  · rcases List.mem_cons.mp hc' with rfl | hh
    · decide
    · rcases List.mem_cons.mp hh with rfl | hh
      · decide
      · cases hh
  · rcases List.mem_cons.mp hc' with rfl | hh
    · decide
    · rcases List.mem_cons.mp hh with rfl | hh
      · decide
      · cases hh
  · rcases List.mem_cons.mp hc' with rfl | hh
    · decide
    · rcases List.mem_cons.mp hh with rfl | hh
      · decide
      · cases hh
  · rcases List.mem_cons.mp hc' with rfl | hh
    · decide
    · rcases List.mem_cons.mp hh with rfl | hh
      · decide
      · cases hh
  · rcases List.mem_cons.mp hc' with rfl | hh
    · decide
    · rcases List.mem_cons.mp hh with rfl | hh
      · decide
      · cases hh
  · rcases List.mem_cons.mp hc' with rfl | hh
    · decide
    · rcases List.mem_cons.mp hh with rfl | hh
      · decide
      · cases hh
  · rcases List.mem_cons.mp hc' with rfl | hh
    · decide
    · rcases List.mem_cons.mp hh with rfl | hh
      · decide
      · rcases List.mem_cons.mp hh with rfl | hh
        · decide
        · rcases List.mem_cons.mp hh with rfl | hh
          · decide
          · rcases List.mem_cons.mp hh with rfl | hh
            · exact hexDigit_not_ws _ (by omega)
            · rcases List.mem_cons.mp hh with rfl | hh
              · exact hexDigit_not_ws _ (Nat.mod_lt _ (by omega))
              · cases hh
  · rcases List.mem_cons.mp hc' with rfl | hh
    · exact h
    · cases hh

/-- Escaping a whitespace-free string yields no whitespace. -/
theorem escape_string_not_ws (s : List Char)
    (h : s.all (fun c => !(jsonWs c)) = true) :
    ∀ c ∈ escape_string s, jsonWs c = false := by
  intro c hc
  obtain ⟨a, ha, hmem⟩ := List.mem_flatMap.mp hc
  have hna : jsonWs a = false := by
    have := List.all_eq_true.mp h a ha
    simpa using this
  exact escapeChar_not_ws a hna c hmem

/-- A character of a comma-joined list is a comma or comes from a part. -/
theorem commaJoin_mem :
    ∀ (parts : List (List Char)) (c : Char), c ∈ commaJoin parts →
      c = ',' ∨ ∃ p ∈ parts, c ∈ p := by
  intro parts
  induction parts with
  | nil => intro c hc; cases hc
  | cons x rest ih =>
    intro c hc
    cases rest with
    | nil =>
      right
      exact ⟨x, List.mem_cons_self _ _, hc⟩
    | cons y rest' =>
      unfold commaJoin at hc
      rcases List.mem_append.mp hc with hx | hy
      · right
        exact ⟨x, List.mem_cons_self _ _, hx⟩
      · rcases List.mem_cons.mp hy with rfl | hy'
        · left; rfl
        · rcases ih c hy' with h | ⟨p, hp, hcp⟩
          · left; exact h
          · right; exact ⟨p, List.mem_cons_of_mem _ hp, hcp⟩

/-- Each rendered array element comes from an element of the array. -/
theorem canonArr_mem :
    ∀ (xs : List Json) (p : List Char), p ∈ canonArr xs →
      ∃ v ∈ xs, p = canonicalize v := by
  intro xs
  induction xs with
  | nil => intro p hp; cases hp
  | cons x xs ih =>
    intro p hp
    unfold canonArr at hp
    rcases List.mem_cons.mp hp with rfl | hmem
    · exact ⟨x, List.mem_cons_self _ _, rfl⟩
    · obtain ⟨v, hv, rfl⟩ := ih p hmem
      exact ⟨v, List.mem_cons_of_mem _ hv, rfl⟩

/-- Each rendered field comes from a field of the object. -/
theorem canonFields_values :
    ∀ (fs : List (List Char × Json)) (q : List Char × List Char),
      q ∈ canonFields fs → ∃ k v, (k, v) ∈ fs ∧ q = (k, canonicalize v) := by
  intro fs
  induction fs with
  | nil => intro q hq; cases hq
  | cons e fs ih =>
    obtain ⟨k, v⟩ := e
    intro q hq
    unfold canonFields at hq
    rcases List.mem_cons.mp hq with rfl | hmem
    · exact ⟨k, v, List.mem_cons_self _ _, rfl⟩
    · obtain ⟨k', v', hv', rfl⟩ := ih q hmem
      exact ⟨k', v', List.mem_cons_of_mem _ hv', rfl⟩

/-- `noWsArr` gives the whitespace condition of each element. -/
theorem noWsArr_mem {xs : List Json} (h : noWsArr xs = true) :
    ∀ v ∈ xs, noWs v = true := by
  induction xs with
  | nil => intro v hv; cases hv
  | cons x xs ih =>
    unfold noWsArr at h
    rw [Bool.and_eq_true] at h
    intro v hv
    rcases List.mem_cons.mp hv with rfl | hmem
    · exact h.1
    · exact ih h.2 v hmem

/-- `noWsFields` gives the whitespace condition of each key and value. -/
theorem noWsFields_mem {fs : List (List Char × Json)} (h : noWsFields fs = true) :
    ∀ k v, (k, v) ∈ fs →
      k.all (fun c => !(jsonWs c)) = true ∧ noWs v = true := by
  induction fs with
  | nil => intro k v hv; cases hv
  | cons e fs ih =>
    obtain ⟨k0, v0⟩ := e
    unfold noWsFields at h
    rw [Bool.and_eq_true, Bool.and_eq_true] at h
    intro k v hv
    rcases List.mem_cons.mp hv with heq | hmem
    · injection heq with h1 h2
      subst h1
      subst h2
      exact ⟨h.1.1, h.1.2⟩
    · exact ih h.2 k v hmem

/-- The canonical form of a whitespace-free value contains no whitespace
character (strong induction on size). -/
theorem noWs_canonicalize_aux :
    ∀ (n : Nat) (v : Json), sizeOf v ≤ n → noWs v = true →
      ∀ c ∈ canonicalize v, jsonWs c = false := by
  intro n
  induction n with
  | zero =>
    intro v hsz
    have := json_sizeOf_pos v
    omega
  | succ n ihn =>
    intro v hsz hno
    cases v with
    | null => decide
    | bool b => cases b <;> decide
    | num lit =>
      intro c hc
      have := List.all_eq_true.mp hno c hc
      simpa using this
    | str s =>
      intro c hc
      rcases List.mem_cons.mp hc with rfl | hc'
      · decide
      · rcases List.mem_append.mp hc' with hmem | hmem
        · exact escape_string_not_ws s hno c hmem
        · rcases List.mem_cons.mp hmem with rfl | hh
          · decide
          · cases hh
    | arr xs =>
      intro c hc
      rcases List.mem_cons.mp hc with rfl | hc'
      · decide
      · rcases List.mem_append.mp hc' with hmem | hmem
        · rcases commaJoin_mem _ c hmem with rfl | ⟨p, hp, hcp⟩
          · decide
          · obtain ⟨v, hv, rfl⟩ := canonArr_mem xs p hp
            refine ihn v ?_ (noWsArr_mem hno v hv) c hcp
            have := sizeOf_lt_of_mem_arr hv
            omega
        · rcases List.mem_cons.mp hmem with rfl | hh
          · decide
          · cases hh
    | obj fs =>
      intro c hc
      rcases List.mem_cons.mp hc with rfl | hc'
      · decide
      · rcases List.mem_append.mp hc' with hmem | hmem
        · rcases commaJoin_mem _ c hmem with rfl | ⟨p, hp, hcp⟩
          · decide
          · obtain ⟨q, hq, rfl⟩ := List.mem_map.mp hp
            have hq' : q ∈ canonFields fs := ((sortPairs_perm _).mem_iff).mp hq
            obtain ⟨k, v, hkv, rfl⟩ := canonFields_values fs q hq'
            obtain ⟨hkws, hvws⟩ := noWsFields_mem hno k v hkv
            unfold renderField at hcp
            rcases List.mem_cons.mp hcp with rfl | hcp'
            · decide
            · rcases List.mem_append.mp hcp' with hm | hm
              · exact escape_string_not_ws k hkws c hm
              · rcases List.mem_cons.mp hm with rfl | hm'
                · decide
                · rcases List.mem_cons.mp hm' with rfl | hm''
                  · decide
                  · refine ihn v ?_ hvws c hm''
                    have := sizeOf_lt_of_mem_obj hkv
                    simp only at this
                    omega
        · rcases List.mem_cons.mp hmem with rfl | hh
          · decide
          · cases hh

end Canonical

namespace Canonical

/-- C4: semantically equal well-formed JSON values (well-formed means every
object has pairwise-distinct keys, the `serde_json::Map` invariant)
canonicalize to identical byte strings; object keys are emitted in ascending
order (lexicographic on Unicode code points); when the value's embedded
texts are whitespace-free the canonical output contains no whitespace
character at all (structural output never introduces any); and
`canonicalize_for_signing` equals `canonicalize` applied to the manifest
with its top-level `signature` key removed. -/
theorem canonicalize_spec :
    (∀ a b : Json, wellFormed a = true → semEq a b = true →
      canonicalize a = canonicalize b) ∧
    (∀ l : List (List Char × List Char),
      List.Sorted (· ≤ ·) ((sortPairs l).map Prod.fst)) ∧
    (∀ v : Json, noWs v = true → ∀ c ∈ canonicalize v, jsonWs c = false) ∧
    (∀ m : Json,
      canonicalize_for_signing m = canonicalize (stripTopLevelSignature m)) := by
  refine ⟨?_, ?_, ?_, ?_⟩
  · intro a b hwf hse
    exact semEq_canonicalize_aux (sizeOf a) a b (le_refl _) hwf hse
  · exact sortPairs_keys_sorted
  · intro v hv
    exact noWs_canonicalize_aux (sizeOf v) v (le_refl _) hv
  · intro m
    cases m <;> rfl

/-- Witness: the two example objects differ only in field order, are
semantically equal and well-formed, and the theorem yields identical
canonical byte strings for them. -/
theorem canonicalize_spec_witness :
    wellFormed jExampleA = true ∧ semEq jExampleA jExampleB = true ∧
      canonicalize jExampleA = canonicalize jExampleB :=
  ⟨by decide, by decide,
    canonicalize_spec.1 jExampleA jExampleB (by decide) (by decide)⟩

end Canonical
